import Mathlib

/-!
A shallow embedding of the core of the `langulo` pipeline (the 64-bit tagged
`Word`, the emitter, the binary serializer/loader and the stack VM), together
with theorems checking the natural-language specification against it.

Conventions of the embedding:
* Machine integers are modelled as `Nat`/`Int`; `u64` bit manipulation is kept
  in `&&& / ||| / ^^^ / <<< / >>>` form mirroring the Rust source, and two's
  complement `i32` values are encoded/decoded explicitly.
* `debug_assert!` has no effect in a release build and is not modelled;
  `panic!`-like events (`unwrap`, `expect`, `assert_eq!`, `unimplemented!`,
  slice-index panics and the mandatory integer div/rem overflow checks)
  are modelled as `VMError.fault`; `LanguloErr::vm` errors as `VMError.langulo`.
* `f64` values and their IEEE-754 arithmetic are abstracted by a type
  parameter `F` with an explicit operation table `FloatOps F`; heap pointers
  are modelled as indices into an allocation list.
-/

deriving instance DecidableEq for Except

namespace Langulo

/-- From `const fn bitmask(from: u32, to_excluded: u32) -> u64` in
`src/word/structure.rs`. -/
def bitmask (lo to_excluded : Nat) : Nat :=
  let upper := to_excluded - 1
  if lo > 63 || upper > 63 || lo > upper then 0
  else ((1 <<< (upper - lo + 1)) - 1) <<< lo

def TAG_START : Nat := 0
def OPCODE_START : Nat := 4
def AUX_START : Nat := 10
def PTR_START : Nat := 32

def TAG_MASK : Nat := bitmask TAG_START OPCODE_START
def OPCODE_MASK : Nat := bitmask OPCODE_START AUX_START
def AUX_MASK : Nat := bitmask AUX_START PTR_START
def PTR_MASK : Nat := bitmask PTR_START 64

/-- All 64 bits set; used to model the `u64` bitwise NOT `!m` as `MASK64 ^^^ m`. -/
def MASK64 : Nat := 2 ^ 64 - 1

/-- `u64` bitwise complement of a mask (all masks fit in 64 bits). -/
def not64 (m : Nat) : Nat := MASK64 ^^^ m

/-- `pub enum ValueTag` from `src/word/structure.rs`, plus the `Special`
variant: the current VM and emitter refer to `ValueTag::Special` (the
sentinel tag of the default-table-arm and "no" Words) but the enum shipped
under `src/` predates it.  Modelled from the spec: "a reserved
`tag = Special` value that no user program can produce", appended after the
existing variants. -/
inductive ValueTag where
  | int | bool | char
  | fnPtr | floatPtr | strPtr | tablePtr | optionPtr
  | special
deriving DecidableEq

def ValueTag.toNat : ValueTag → Nat
  | .int => 0 | .bool => 1 | .char => 2
  | .fnPtr => 3 | .floatPtr => 4 | .strPtr => 5 | .tablePtr => 6
  | .optionPtr => 7 | .special => 8

def ValueTag.ofNat? : Nat → Option ValueTag
  | 0 => some .int | 1 => some .bool | 2 => some .char
  | 3 => some .fnPtr | 4 => some .floatPtr | 5 => some .strPtr
  | 6 => some .tablePtr | 7 => some .optionPtr | 8 => some .special
  | _ => none

/-- `pub enum OpCode` from `src/word/structure.rs` (discriminants 0..52),
plus the four opcodes the current VM/emitter dispatch on that are missing
from that stale enum.  Modelled from the spec (`JumpIfNo`, and the
embedded-operand variants `WrapInOptionThis`, `UnwrapOptionThis`,
`IndexGetThis`); they are appended after the last source variant. -/
inductive OpCode where
  | value | readFromMap | stop | ret | jump | jumpIfFalse | call | callBuiltin
  | setLocal | setLocalThis | getLocal | setGlobal | getGlobal
  | indexGet | indexSet | wrapInOption | unwrapOption | print | cast
  | add | subtract | multiply | divide | modulo | power
  | negate | logicalAnd | logicalOr | logicalXor
  | greaterThan | lessThan | equals | notEquals | greaterThanEq | lessThanEq
  | printThis | castThis
  | addThis | subtractThis | multiplyThis | divideThis | moduloThis | powerThis
  | negateThis | logicalAndThis | logicalOrThis | logicalXorThis
  | greaterThanThis | lessThanThis | equalsThis | notEqualsThis
  | greaterThanEqThis | lessThanEqThis
  | jumpIfNo | wrapInOptionThis | unwrapOptionThis | indexGetThis
deriving DecidableEq

def OpCode.toNat : OpCode → Nat
  | .value => 0 | .readFromMap => 1 | .stop => 2 | .ret => 3 | .jump => 4
  | .jumpIfFalse => 5 | .call => 6 | .callBuiltin => 7
  | .setLocal => 8 | .setLocalThis => 9 | .getLocal => 10
  | .setGlobal => 11 | .getGlobal => 12
  | .indexGet => 13 | .indexSet => 14 | .wrapInOption => 15
  | .unwrapOption => 16 | .print => 17 | .cast => 18
  | .add => 19 | .subtract => 20 | .multiply => 21 | .divide => 22
  | .modulo => 23 | .power => 24
  | .negate => 25 | .logicalAnd => 26 | .logicalOr => 27 | .logicalXor => 28
  | .greaterThan => 29 | .lessThan => 30 | .equals => 31 | .notEquals => 32
  | .greaterThanEq => 33 | .lessThanEq => 34
  | .printThis => 35 | .castThis => 36
  | .addThis => 37 | .subtractThis => 38 | .multiplyThis => 39
  | .divideThis => 40 | .moduloThis => 41 | .powerThis => 42
  | .negateThis => 43 | .logicalAndThis => 44 | .logicalOrThis => 45
  | .logicalXorThis => 46
  | .greaterThanThis => 47 | .lessThanThis => 48 | .equalsThis => 49
  | .notEqualsThis => 50 | .greaterThanEqThis => 51 | .lessThanEqThis => 52
  | .jumpIfNo => 53 | .wrapInOptionThis => 54 | .unwrapOptionThis => 55
  | .indexGetThis => 56

def OpCode.ofNat? : Nat → Option OpCode
  | 0 => some .value | 1 => some .readFromMap | 2 => some .stop | 3 => some .ret
  | 4 => some .jump | 5 => some .jumpIfFalse | 6 => some .call
  | 7 => some .callBuiltin | 8 => some .setLocal | 9 => some .setLocalThis
  | 10 => some .getLocal | 11 => some .setGlobal | 12 => some .getGlobal
  | 13 => some .indexGet | 14 => some .indexSet | 15 => some .wrapInOption
  | 16 => some .unwrapOption | 17 => some .print | 18 => some .cast
  | 19 => some .add | 20 => some .subtract | 21 => some .multiply
  | 22 => some .divide | 23 => some .modulo | 24 => some .power
  | 25 => some .negate | 26 => some .logicalAnd | 27 => some .logicalOr
  | 28 => some .logicalXor | 29 => some .greaterThan | 30 => some .lessThan
  | 31 => some .equals | 32 => some .notEquals | 33 => some .greaterThanEq
  | 34 => some .lessThanEq | 35 => some .printThis | 36 => some .castThis
  | 37 => some .addThis | 38 => some .subtractThis | 39 => some .multiplyThis
  | 40 => some .divideThis | 41 => some .moduloThis | 42 => some .powerThis
  | 43 => some .negateThis | 44 => some .logicalAndThis
  | 45 => some .logicalOrThis | 46 => some .logicalXorThis
  | 47 => some .greaterThanThis | 48 => some .lessThanThis
  | 49 => some .equalsThis | 50 => some .notEqualsThis
  | 51 => some .greaterThanEqThis | 52 => some .lessThanEqThis
  | 53 => some .jumpIfNo | 54 => some .wrapInOptionThis
  | 55 => some .unwrapOptionThis | 56 => some .indexGetThis
  | _ => none

/-- `pub struct Word(pub(crate) *mut u8)` — a 64-bit packed value.  The raw
`u64` is modelled as a `Nat` (all constructors keep it below `2 ^ 64`). -/
structure Word where
  raw : Nat
deriving DecidableEq

/-- `Word::value` (and `Word::ptr`, which extracts the same bits): payload
field, bits 32..64. -/
def Word.value (w : Word) : Nat := (w.raw &&& PTR_MASK) >>> PTR_START

/-- `Word::aux`: bits 10..32. -/
def Word.aux (w : Word) : Nat := (w.raw &&& AUX_MASK) >>> AUX_START

/-- The numeric opcode field, bits 4..10 (`Word::opcode` before the enum
conversion). -/
def Word.opcodeNat (w : Word) : Nat := (w.raw &&& OPCODE_MASK) >>> OPCODE_START

/-- The numeric tag field, bits 0..4 (`Word::tag` before the enum
conversion). -/
def Word.tagNat (w : Word) : Nat := w.raw &&& TAG_MASK

/-- `Word::opcode` — `OpCode::from_u64(..).unwrap()`; `none` models the
panic on an unknown discriminant. -/
def Word.opcode? (w : Word) : Option OpCode := OpCode.ofNat? w.opcodeNat

/-- `Word::tag` — `ValueTag::from_u64(..).unwrap()`. -/
def Word.tag? (w : Word) : Option ValueTag := ValueTag.ofNat? w.tagNat

/-- `Word::new(ptr, op_code, tag)`. -/
def Word.new (ptr : Nat) (op_code : OpCode) (tag : ValueTag) : Word :=
  ⟨((ptr <<< PTR_START) &&& PTR_MASK)
    ||| ((op_code.toNat <<< OPCODE_START) &&& OPCODE_MASK)
    ||| (tag.toNat &&& TAG_MASK)⟩

/-- `Word::from_u64`. -/
def Word.from_u64 (raw : Nat) : Word := ⟨raw⟩

/-- `Word::is_embeddable(&self) -> bool { self.opcode() == OpCode::Value }` -/
def Word.is_embeddable (w : Word) : Bool := w.opcode? == some OpCode.value

/-- `Word::set_tag`. -/
def Word.set_tag (w : Word) (new_tag : ValueTag) : Word :=
  ⟨(w.raw &&& not64 TAG_MASK) ||| (new_tag.toNat <<< TAG_START)⟩

/-- `Word::set_opcode`. -/
def Word.set_opcode (w : Word) (new_opcode : OpCode) : Word :=
  ⟨(w.raw &&& not64 OPCODE_MASK) ||| (new_opcode.toNat <<< OPCODE_START)⟩

/-- `Word::set_aux(&mut self, new_aux: u32)` — note the source does not mask
`new_aux` against `AUX_MASK`, so bits of `new_aux` at or above 22 spill past
the aux field. -/
def Word.set_aux (w : Word) (new_aux : Nat) : Word :=
  ⟨(w.raw &&& not64 AUX_MASK) ||| (new_aux <<< AUX_START)⟩

/-- `Word::set_value(&mut self, value: u64)` (from `vm/word/mod.rs`; the
emitter patches jump payloads with it, passing a `u32`). -/
def Word.set_value (w : Word) (v : Nat) : Word :=
  ⟨(w.raw &&& not64 PTR_MASK) ||| (v <<< PTR_START)⟩

/-- `Word::update_stack_value(&mut self, value: u32, opcode: OpCode)`. -/
def Word.update_stack_value (w : Word) (v : Nat) (opcode : OpCode) : Word :=
  ⟨((w.raw &&& not64 PTR_MASK) &&& not64 OPCODE_MASK)
    ||| (v <<< PTR_START)
    ||| ((opcode.toNat <<< OPCODE_START) &&& OPCODE_MASK)⟩

/-- `Word::replace_with_stack_value(&mut self, value: u32, opcode: OpCode,
tag: ValueTag)`. -/
def Word.replace_with_stack_value (w : Word) (v : Nat) (opcode : OpCode)
    (tag : ValueTag) : Word :=
  ⟨(((w.raw &&& not64 PTR_MASK) &&& not64 OPCODE_MASK) &&& not64 TAG_MASK)
    ||| (v <<< PTR_START)
    ||| ((opcode.toNat <<< OPCODE_START) &&& OPCODE_MASK)
    ||| ((tag.toNat <<< TAG_START) &&& TAG_MASK)⟩

/-- `Word::become_word`. -/
def Word.become_word (_w new_word : Word) : Word := new_word

/-- `update_heap_value`'s effect on the Word itself:
`(self.0 & !OPCODE_MASK) | ((opcode << OPCODE_START) & OPCODE_MASK)`
(the heap write part is modelled at the call sites by updating the heap
list). -/
def Word.update_heap_opcode (w : Word) (opcode : OpCode) : Word :=
  ⟨(w.raw &&& not64 OPCODE_MASK) ||| ((opcode.toNat <<< OPCODE_START) &&& OPCODE_MASK)⟩

/-- Two's complement encoding of an `i32` into the 32-bit payload
(`value as _` sign-extends the `i32` and `Word::new` keeps the low 32 bits). -/
def encodeI32 (v : Int) : Nat := (v % (2 ^ 32 : Int)).toNat

/-- Reading the 32-bit payload back as an `i32` (`self.value() as i32`). -/
def decodeI32 (n : Nat) : Int :=
  if n < 2 ^ 31 then (n : Int) else (n : Int) - 2 ^ 32

/-- `Word::int` from `word/conversions.rs`. -/
def Word.int (value : Int) (opcode : OpCode) : Word :=
  Word.new (encodeI32 value) opcode ValueTag.int

/-- `Word::bool`. -/
def Word.bool (value : Bool) (opcode : OpCode) : Word :=
  Word.new (if value then 1 else 0) opcode ValueTag.bool

/-- `Word::char` (`value as u8 as _`: the char is truncated to a byte). -/
def Word.char (value : Nat) (opcode : OpCode) : Word :=
  Word.new (value % 256) opcode ValueTag.char

/-- `Word::raw_float`: a compile-time reference into the float pool. -/
def Word.raw_float (pointer_to_float_map : Nat) : Word :=
  Word.new pointer_to_float_map OpCode.readFromMap ValueTag.floatPtr

/-- `Word::to_bool` (the `debug_assert` on the tag is debug-only). -/
def Word.to_bool (w : Word) : Bool := w.value == 1

/-- `Word::to_int`. -/
def Word.to_int (w : Word) : Int := decodeI32 w.value

/-- Rust `String`s are UTF-8 byte strings; the pools and heap cells store
them as byte lists. -/
abbrev ByteStr := List Nat

/-- A heap-resident value (`HeapFloat`, `HeapStr`, `HeapTable`,
`HeapOption`); `f64` is abstracted by the parameter `F`. -/
inductive HeapCell (F : Type) where
  | float (f : F)
  | str (s : ByteStr)
  | table (pairs : List (Word × Word))
  | option (inner : Option Word)
deriving DecidableEq

/-- The 32-bit-addressable process heap backing heap-tagged Words; a Word's
payload is an index into this allocation list. -/
abbrev Heap (F : Type) := List (HeapCell F)

/-- The `f64` operations used by the VM, abstracted: IEEE-754 arithmetic is
not modelled bit-exactly, only its interface.  `ofInt` covers the
`as f32`/`as f64` casts of integer operands, `cmp?` covers
`PartialOrd::partial_cmp` on floats (partial because of NaN). -/
structure FloatOps (F : Type) where
  add : F → F → F
  sub : F → F → F
  mul : F → F → F
  div : F → F → F
  fmod : F → F → F
  fpow : F → F → F
  ofInt : Int → F
  zero : F
  cmp? : F → F → Option Ordering

/-- `HeapValue::write` plus `gc.trace`: allocate a fresh cell and return a
Word pointing at it (the trace list itself has no observable semantics and
is not modelled). -/
def heapWrite {F : Type} (h : Heap F) (cell : HeapCell F) (opcode : OpCode)
    (tag : ValueTag) : Word × Heap F :=
  (Word.new h.length opcode tag, h ++ [cell])

/-- `Word::float` from `word/conversions.rs`. -/
def Word.float {F : Type} (value : F) (opcode : OpCode) (h : Heap F) :
    Word × Heap F :=
  heapWrite h (HeapCell.float value) opcode ValueTag.floatPtr

/-- `Word::str`. -/
def Word.str {F : Type} (value : ByteStr) (opcode : OpCode) (h : Heap F) :
    Word × Heap F :=
  heapWrite h (HeapCell.str value) opcode ValueTag.strPtr

/-- `Word::table`. -/
def Word.mkTable {F : Type} (value : List (Word × Word)) (opcode : OpCode)
    (h : Heap F) : Word × Heap F :=
  heapWrite h (HeapCell.table value) opcode ValueTag.tablePtr

/-- `Word::option`. -/
def Word.mkOption {F : Type} (value : Option Word) (opcode : OpCode)
    (h : Heap F) : Word × Heap F :=
  heapWrite h (HeapCell.option value) opcode ValueTag.optionPtr

/-- `Word::to_float`: dereference the payload as a float cell.  A dangling
or wrongly-typed pointer is unrestrained memory access in the source and is
modelled as `none`. -/
def Word.to_float? {F : Type} (w : Word) (h : Heap F) : Option F :=
  match h[w.value]? with
  | some (HeapCell.float f) => some f
  | _ => none

/-- `Word::as_str`. -/
def Word.as_str? {F : Type} (w : Word) (h : Heap F) : Option ByteStr :=
  match h[w.value]? with
  | some (HeapCell.str s) => some s
  | _ => none

/-- `Word::as_table` — unlike the float/str readers this carries a release
`assert_eq!(self.tag(), ValueTag::TablePtr)`, so a non-table tag panics
(modelled as `none`) before the dereference. -/
def Word.as_table? {F : Type} (w : Word) (h : Heap F) :
    Option (List (Word × Word)) :=
  if w.tag? = some ValueTag.tablePtr then
    match h[w.value]? with
    | some (HeapCell.table t) => some t
    | _ => none
  else none

/-- `Word::as_option` — carries a release
`assert_eq!(self.tag(), ValueTag::OptionPtr)`. -/
def Word.as_option? {F : Type} (w : Word) (h : Heap F) :
    Option (Option Word) :=
  if w.tag? = some ValueTag.optionPtr then
    match h[w.value]? with
    | some (HeapCell.option o) => some o
    | _ => none
  else none

/-- Modelled from the spec: the `DefaultKey` sentinel Word
(`Word::DEFAULTTABLEARM()` is referenced by the emitter and VM but its
definition is not under `src/`): "a reserved `tag = Special` value that no
user program can produce"; its payload 0 displays as the default arm. -/
def Word.DEFAULTTABLEARM : Word := Word.new 0 OpCode.value ValueTag.special

/-- Modelled from the spec: the reserved "no" sentinel Word
(`Word::NOOPTION()`, also missing from `src/`): tag `Special`, payload 1
(`Display` prints a Special Word with payload 1 as `no`). -/
def Word.NOOPTION : Word := Word.new 1 OpCode.value ValueTag.special

/-- Runtime failures: `langulo` is a `LanguloErr::vm` error, `fault` models
a Rust panic (`unwrap`/`expect`/`assert_eq!`/`unimplemented!`/slice-index
panic/integer div-rem overflow panic). -/
inductive VMError where
  | langulo (msg : String)
  | fault (msg : String)
deriving DecidableEq

/-- Lexicographic byte comparison (Rust `str` ordering). -/
def byteStrCmp : ByteStr → ByteStr → Ordering
  | [], [] => Ordering.eq
  | [], _ :: _ => Ordering.lt
  | _ :: _, [] => Ordering.gt
  | a :: as_, b :: bs =>
    match compare a b with
    | Ordering.eq => byteStrCmp as_ bs
    | o => o

/-- `impl PartialEq for Word` from `word/conversions.rs`: tags must match,
then immediates compare by payload, floats and strings through the heap;
other tags hit `unimplemented!`. -/
def wordEqM {F : Type} [DecidableEq F] (h : Heap F) (a b : Word) :
    Except VMError Bool :=
  match a.tag?, b.tag? with
  | some ta, some tb =>
    if ta ≠ tb then Except.ok false
    else
      match ta with
      | ValueTag.int | ValueTag.bool | ValueTag.char => Except.ok (a.value == b.value)
      | ValueTag.floatPtr =>
        match a.to_float? h, b.to_float? h with
        | some x, some y => Except.ok (x == y)
        | _, _ => Except.error (VMError.fault "invalid float dereference")
      | ValueTag.strPtr =>
        match a.as_str? h, b.as_str? h with
        | some x, some y => Except.ok (x == y)
        | _, _ => Except.error (VMError.fault "invalid string dereference")
      | _ => Except.error (VMError.fault "no partialeq impl for tag")
  | _, _ => Except.error (VMError.fault "invalid tag")

/-- `impl PartialOrd for Word`: dispatches on `self`'s tag only (the tag
equality is just a `debug_assert`); immediates compare by unsigned payload,
floats by `partial_cmp`, strings lexicographically. -/
def wordPartialCmpM {F : Type} (fo : FloatOps F) (h : Heap F) (a b : Word) :
    Except VMError (Option Ordering) :=
  match a.tag? with
  | some ValueTag.int | some ValueTag.bool | some ValueTag.char =>
    Except.ok (some (compare a.value b.value))
  | some ValueTag.floatPtr =>
    match a.to_float? h, b.to_float? h with
    | some x, some y => Except.ok (fo.cmp? x y)
    | _, _ => Except.error (VMError.fault "invalid float dereference")
  | some ValueTag.strPtr =>
    match a.as_str? h, b.as_str? h with
    | some x, some y => Except.ok (some (byteStrCmp x y))
    | _, _ => Except.error (VMError.fault "invalid string dereference")
  | some _ => Except.error (VMError.fault "no partialord impl for tag")
  | none => Except.error (VMError.fault "invalid tag")

/-- `Word::add_inplace` from `vm/word/operations.rs`.  `i32` addition wraps
in a release build (the overflow check is debug-only), hence the
`encodeI32`. -/
def Word.add_inplace {F : Type} (fo : FloatOps F) (self rhs : Word)
    (h : Heap F) : Except VMError (Word × Heap F) :=
  match self.tag? with
  | some ValueTag.int =>
    Except.ok (self.update_stack_value (encodeI32 (self.to_int + rhs.to_int)) OpCode.value, h)
  | some ValueTag.floatPtr =>
    match self.to_float? h, rhs.to_float? h with
    | some a, some b =>
      Except.ok (self.update_heap_opcode OpCode.value,
        h.set self.value (HeapCell.float (fo.add a b)))
    | _, _ => Except.error (VMError.fault "invalid float dereference")
  | some _ => Except.error (VMError.langulo "cannot add")
  | none => Except.error (VMError.fault "invalid tag")

/-- `Word::subtract_inplace`. -/
def Word.subtract_inplace {F : Type} (fo : FloatOps F) (self rhs : Word)
    (h : Heap F) : Except VMError (Word × Heap F) :=
  match self.tag? with
  | some ValueTag.int =>
    Except.ok (self.update_stack_value (encodeI32 (self.to_int - rhs.to_int)) OpCode.value, h)
  | some ValueTag.floatPtr =>
    match self.to_float? h, rhs.to_float? h with
    | some a, some b =>
      Except.ok (self.update_heap_opcode OpCode.value,
        h.set self.value (HeapCell.float (fo.sub a b)))
    | _, _ => Except.error (VMError.fault "invalid float dereference")
  | some _ => Except.error (VMError.langulo "cannot sub")
  | none => Except.error (VMError.fault "invalid tag")

/-- `Word::multiply_inplace`. -/
def Word.multiply_inplace {F : Type} (fo : FloatOps F) (self rhs : Word)
    (h : Heap F) : Except VMError (Word × Heap F) :=
  match self.tag? with
  | some ValueTag.int =>
    Except.ok (self.update_stack_value (encodeI32 (self.to_int * rhs.to_int)) OpCode.value, h)
  | some ValueTag.floatPtr =>
    match self.to_float? h, rhs.to_float? h with
    | some a, some b =>
      Except.ok (self.update_heap_opcode OpCode.value,
        h.set self.value (HeapCell.float (fo.mul a b)))
    | _, _ => Except.error (VMError.fault "invalid float dereference")
  | some _ => Except.error (VMError.langulo "cannot mul")
  | none => Except.error (VMError.fault "invalid tag")

/-- `Word::divide_inplace`.  Besides the explicit zero checks, Rust's `/`
on `i32` panics when the quotient overflows (`i32::MIN / -1`), in release
builds too; that mandatory panic is modelled as a fault. -/
def Word.divide_inplace {F : Type} [DecidableEq F] (fo : FloatOps F)
    (self rhs : Word) (h : Heap F) : Except VMError (Word × Heap F) :=
  match self.tag? with
  | some ValueTag.int =>
    if rhs.to_int = 0 then Except.error (VMError.langulo "division by zero")
    else if self.to_int = -(2 ^ 31) ∧ rhs.to_int = -1 then
      Except.error (VMError.fault "attempt to divide with overflow")
    else
      Except.ok (self.update_stack_value (encodeI32 (Int.tdiv self.to_int rhs.to_int)) OpCode.value, h)
  | some ValueTag.floatPtr =>
    match self.to_float? h, rhs.to_float? h with
    | some a, some b =>
      if b = fo.zero then Except.error (VMError.langulo "division by zero")
      else
        Except.ok (self.update_heap_opcode OpCode.value,
          h.set self.value (HeapCell.float (fo.div a b)))
    | _, _ => Except.error (VMError.fault "invalid float dereference")
  | some _ => Except.error (VMError.langulo "cannot div")
  | none => Except.error (VMError.fault "invalid tag")

/-- `Word::modulo_inplace`.  Rust `%` on `i32` truncates toward zero
(`Int.tmod`) and panics on `i32::MIN % -1`. -/
def Word.modulo_inplace {F : Type} [DecidableEq F] (fo : FloatOps F)
    (self rhs : Word) (h : Heap F) : Except VMError (Word × Heap F) :=
  match self.tag? with
  | some ValueTag.int =>
    if rhs.to_int = 0 then Except.error (VMError.langulo "modulo by zero")
    else if self.to_int = -(2 ^ 31) ∧ rhs.to_int = -1 then
      Except.error (VMError.fault "attempt to calculate the remainder with overflow")
    else
      Except.ok (self.update_stack_value (encodeI32 (Int.tmod self.to_int rhs.to_int)) OpCode.value, h)
  | some ValueTag.floatPtr =>
    match self.to_float? h, rhs.to_float? h with
    | some a, some b =>
      if b = fo.zero then Except.error (VMError.langulo "modulo by zero")
      else
        Except.ok (self.update_heap_opcode OpCode.value,
          h.set self.value (HeapCell.float (fo.fmod a b)))
    | _, _ => Except.error (VMError.fault "invalid float dereference")
  | some _ => Except.error (VMError.langulo "cannot modulo")
  | none => Except.error (VMError.fault "invalid tag")

/-- `Word::exponentiate_inplace`: integer bases are promoted to a freshly
allocated float; float bases are updated in place. -/
def Word.exponentiate_inplace {F : Type} (fo : FloatOps F) (self rhs : Word)
    (h : Heap F) : Except VMError (Word × Heap F) :=
  match self.tag?, rhs.tag? with
  | some ValueTag.int, some ValueTag.int =>
    let (w, h') := Word.float (fo.fpow (fo.ofInt self.to_int) (fo.ofInt rhs.to_int)) OpCode.value h
    Except.ok (self.become_word w, h')
  | some ValueTag.int, some ValueTag.floatPtr =>
    match rhs.to_float? h with
    | some b =>
      let (w, h') := Word.float (fo.fpow (fo.ofInt self.to_int) b) OpCode.value h
      Except.ok (self.become_word w, h')
    | none => Except.error (VMError.fault "invalid float dereference")
  | some ValueTag.floatPtr, some ValueTag.int =>
    match self.to_float? h with
    | some a =>
      Except.ok (self.update_heap_opcode OpCode.value,
        h.set self.value (HeapCell.float (fo.fpow a (fo.ofInt rhs.to_int))))
    | none => Except.error (VMError.fault "invalid float dereference")
  | some ValueTag.floatPtr, some ValueTag.floatPtr =>
    match self.to_float? h, rhs.to_float? h with
    | some a, some b =>
      Except.ok (self.update_heap_opcode OpCode.value,
        h.set self.value (HeapCell.float (fo.fpow a b)))
    | _, _ => Except.error (VMError.fault "invalid float dereference")
  | some _, some _ => Except.error (VMError.langulo "cannot exponentiate")
  | _, _ => Except.error (VMError.fault "invalid tag")

/-- `Word::logical_and_inplace` (the `Bool` tag checks are debug-only;
`to_bool` is payload == 1). -/
def Word.logical_and_inplace {F : Type} (_fo : FloatOps F) (self rhs : Word)
    (h : Heap F) : Except VMError (Word × Heap F) :=
  Except.ok (self.update_stack_value (if self.to_bool && rhs.to_bool then 1 else 0) OpCode.value, h)

/-- `Word::logical_or_inplace`. -/
def Word.logical_or_inplace {F : Type} (_fo : FloatOps F) (self rhs : Word)
    (h : Heap F) : Except VMError (Word × Heap F) :=
  Except.ok (self.update_stack_value (if self.to_bool || rhs.to_bool then 1 else 0) OpCode.value, h)

/-- `Word::logical_xor_inplace`. -/
def Word.logical_xor_inplace {F : Type} (_fo : FloatOps F) (self rhs : Word)
    (h : Heap F) : Except VMError (Word × Heap F) :=
  Except.ok (self.update_stack_value (if xor self.to_bool rhs.to_bool then 1 else 0) OpCode.value, h)

/-- `Word::equals_inplace`. -/
def Word.equals_inplace {F : Type} [DecidableEq F] (_fo : FloatOps F)
    (self rhs : Word) (h : Heap F) : Except VMError (Word × Heap F) := do
  let e ← wordEqM h self rhs
  Except.ok (self.replace_with_stack_value (if e then 1 else 0) OpCode.value ValueTag.bool, h)

/-- `Word::not_equals_inplace`. -/
def Word.not_equals_inplace {F : Type} [DecidableEq F] (_fo : FloatOps F)
    (self rhs : Word) (h : Heap F) : Except VMError (Word × Heap F) := do
  let e ← wordEqM h self rhs
  Except.ok (self.replace_with_stack_value (if e then 0 else 1) OpCode.value ValueTag.bool, h)

/-- `impl_word_cmp!(greater_than_inplace, >)`: Rust `>` is
`partial_cmp == Some(Greater)`. -/
def Word.greater_than_inplace {F : Type} (fo : FloatOps F) (self rhs : Word)
    (h : Heap F) : Except VMError (Word × Heap F) := do
  let c ← wordPartialCmpM fo h self rhs
  Except.ok (self.replace_with_stack_value (if c = some Ordering.gt then 1 else 0)
    OpCode.value ValueTag.bool, h)

/-- `impl_word_cmp!(greater_than_eq_inplace, >=)`. -/
def Word.greater_than_eq_inplace {F : Type} (fo : FloatOps F) (self rhs : Word)
    (h : Heap F) : Except VMError (Word × Heap F) := do
  let c ← wordPartialCmpM fo h self rhs
  Except.ok (self.replace_with_stack_value
    (if c = some Ordering.gt ∨ c = some Ordering.eq then 1 else 0)
    OpCode.value ValueTag.bool, h)

/-- `impl_word_cmp!(less_than_inplace, <)`. -/
def Word.less_than_inplace {F : Type} (fo : FloatOps F) (self rhs : Word)
    (h : Heap F) : Except VMError (Word × Heap F) := do
  let c ← wordPartialCmpM fo h self rhs
  Except.ok (self.replace_with_stack_value (if c = some Ordering.lt then 1 else 0)
    OpCode.value ValueTag.bool, h)

/-- `impl_word_cmp!(less_than_eq_inplace, <=)`. -/
def Word.less_than_eq_inplace {F : Type} (fo : FloatOps F) (self rhs : Word)
    (h : Heap F) : Except VMError (Word × Heap F) := do
  let c ← wordPartialCmpM fo h self rhs
  Except.ok (self.replace_with_stack_value
    (if c = some Ordering.lt ∨ c = some Ordering.eq then 1 else 0)
    OpCode.value ValueTag.bool, h)

/-- `BTreeMap::get` under `Word`'s `#[derive(Ord)]` (which compares the raw
64-bit representations). -/
def tableGet (t : List (Word × Word)) (k : Word) : Option Word :=
  (t.find? (fun kv => kv.1.raw == k.raw)).map (fun kv => kv.2)

/-- `BTreeMap::insert` under the same derived ordering. -/
def tableInsert (t : List (Word × Word)) (k v : Word) : List (Word × Word) :=
  if t.any (fun kv => kv.1.raw == k.raw) then
    t.map (fun kv => if kv.1.raw == k.raw then (kv.1, v) else kv)
  else t ++ [(k, v)]

/-- The `for _ in 0..num_of_pairs` pop loop of the `TablePtr` arm of
`ReadFromMap`: pops `value` then `key`, `num` times; `none` models the
stack-underflow panic. -/
def popPairs : Nat → List Word → Option (List (Word × Word) × List Word)
  | 0, st => some ([], st)
  | n + 1, v :: k :: rest =>
    (popPairs n rest).map (fun pr => ((k, v) :: pr.1, pr.2))
  | _ + 1, _ => none

/-- `pub struct VM` from `vm/mod.rs`, with the process heap made explicit
(heap Words point into `heap`; the gc trace list has no observable
semantics).  `stack` and `vars` model the two `VecDeque`s: the head of
`stack` is its back (the top), while `vars` keeps front-to-back order. -/
structure VM (F : Type) where
  bytecode : List Word
  vars : List Word
  stack : List Word
  ip : Nat
  heap_floats : List F
  heap_strings : List (Option ByteStr)
  heap : Heap F
deriving DecidableEq

/-- `VM::new(bytecode, heap_floats, heap_strings)`. -/
def VM.new {F : Type} (bytecode : List Word) (heap_floats : List F)
    (heap_strings : List (Option ByteStr)) : VM F :=
  ⟨bytecode, [], [], 0, heap_floats, heap_strings, []⟩

/-- `VM::from_bytecode_only`, generalized with an initial process heap so
that heap-tagged Words occurring in the bytecode can be given meaning
(`from_bytecode_only` itself passes an empty one). -/
def VM.fresh {F : Type} (bytecode : List Word) (h : Heap F) : VM F :=
  ⟨bytecode, [], [], 0, [], [], h⟩

/-- `VM::from_bytecode_only`. -/
def VM.from_bytecode_only {F : Type} (bytecode : List Word) : VM F :=
  VM.fresh bytecode []

/-- `run_binary!($vm, $op)`: pop the RHS (`pop_value`), then update the new
back of the stack in place. -/
def VM.runBinary {F : Type} (vm : VM F)
    (op : Word → Word → Heap F → Except VMError (Word × Heap F)) :
    Except VMError (VM F) :=
  match vm.stack with
  | rhs :: top :: rest => do
    let (top', h') ← op top rhs vm.heap
    Except.ok { vm with stack := top' :: rest, heap := h' }
  | [_] => Except.error (VMError.fault "called Option::unwrap on a None value")
  | [] => Except.error (VMError.fault "stack underflow")

/-- The `*This` form: `self.stack.back_mut().unwrap().$op(current)` — the
embedded operand is the current instruction Word itself. -/
def VM.runBinaryThis {F : Type} (vm : VM F) (current : Word)
    (op : Word → Word → Heap F → Except VMError (Word × Heap F)) :
    Except VMError (VM F) :=
  match vm.stack with
  | top :: rest => do
    let (top', h') ← op top current vm.heap
    Except.ok { vm with stack := top' :: rest, heap := h' }
  | [] => Except.error (VMError.fault "called Option::unwrap on a None value")

/-- One dispatch of `VM::run`'s `match current.opcode()`.  `ipc` is the
index the current instruction was read from (`self.ip` has already been
incremented in `vm`); the `*This` arms that call `set_opcode` write the
modified Word back to `bytecode[ipc]`. -/
def VM.step {F : Type} [DecidableEq F] (fo : FloatOps F) (ipc : Nat)
    (current : Word) (vm : VM F) : Except VMError (VM F) :=
  match current.opcode? with
  | none => Except.error (VMError.fault "invalid opcode")
  | some op =>
    match op with
    | OpCode.stop => Except.ok vm
    | OpCode.value => Except.ok { vm with stack := current :: vm.stack }
    | OpCode.print =>
      match vm.stack.head? with
      | some _ => Except.ok vm
      | none => Except.error (VMError.fault "called Option::unwrap on a None value")
    | OpCode.add => vm.runBinary (Word.add_inplace fo)
    | OpCode.addThis => vm.runBinaryThis current (Word.add_inplace fo)
    | OpCode.subtract => vm.runBinary (Word.subtract_inplace fo)
    | OpCode.subtractThis => vm.runBinaryThis current (Word.subtract_inplace fo)
    | OpCode.multiply => vm.runBinary (Word.multiply_inplace fo)
    | OpCode.multiplyThis => vm.runBinaryThis current (Word.multiply_inplace fo)
    | OpCode.divide => vm.runBinary (Word.divide_inplace fo)
    | OpCode.divideThis => vm.runBinaryThis current (Word.divide_inplace fo)
    | OpCode.modulo => vm.runBinary (Word.modulo_inplace fo)
    | OpCode.moduloThis => vm.runBinaryThis current (Word.modulo_inplace fo)
    | OpCode.logicalAnd => vm.runBinary (Word.logical_and_inplace fo)
    | OpCode.logicalAndThis => vm.runBinaryThis current (Word.logical_and_inplace fo)
    | OpCode.logicalOr => vm.runBinary (Word.logical_or_inplace fo)
    | OpCode.logicalOrThis => vm.runBinaryThis current (Word.logical_or_inplace fo)
    | OpCode.logicalXor => vm.runBinary (Word.logical_xor_inplace fo)
    | OpCode.logicalXorThis => vm.runBinaryThis current (Word.logical_xor_inplace fo)
    | OpCode.equals => vm.runBinary (Word.equals_inplace fo)
    | OpCode.equalsThis => vm.runBinaryThis current (Word.equals_inplace fo)
    | OpCode.notEquals => vm.runBinary (Word.not_equals_inplace fo)
    | OpCode.notEqualsThis => vm.runBinaryThis current (Word.not_equals_inplace fo)
    | OpCode.greaterThan => vm.runBinary (Word.greater_than_inplace fo)
    | OpCode.greaterThanThis => vm.runBinaryThis current (Word.greater_than_inplace fo)
    | OpCode.lessThan => vm.runBinary (Word.less_than_inplace fo)
    | OpCode.lessThanThis => vm.runBinaryThis current (Word.less_than_inplace fo)
    | OpCode.greaterThanEq => vm.runBinary (Word.greater_than_eq_inplace fo)
    | OpCode.greaterThanEqThis => vm.runBinaryThis current (Word.greater_than_eq_inplace fo)
    | OpCode.lessThanEq => vm.runBinary (Word.less_than_eq_inplace fo)
    | OpCode.lessThanEqThis => vm.runBinaryThis current (Word.less_than_eq_inplace fo)
    | OpCode.power => vm.runBinary (Word.exponentiate_inplace fo)
    | OpCode.powerThis => vm.runBinaryThis current (Word.exponentiate_inplace fo)
    | OpCode.negateThis =>
      Except.ok { vm with stack := Word.bool (!current.to_bool) OpCode.value :: vm.stack }
    | OpCode.setLocalThis =>
      let cur := current.set_opcode OpCode.value
      Except.ok { vm with bytecode := vm.bytecode.set ipc cur,
                          vars := vm.vars ++ [cur], stack := cur :: vm.stack }
    | OpCode.setLocal =>
      match vm.stack.head? with
      | some top => Except.ok { vm with vars := vm.vars ++ [top] }
      | none => Except.error (VMError.fault "called Option::unwrap on a None value")
    | OpCode.getLocal =>
      match vm.vars[current.aux]? with
      | some w => Except.ok { vm with stack := w :: vm.stack }
      | none => Except.error (VMError.fault "index out of bounds")
    | OpCode.wrapInOption =>
      match vm.stack with
      | v :: rest =>
        match v.tag? with
        | none => Except.error (VMError.fault "invalid tag")
        | some t =>
          let inner := if t = ValueTag.special then none else some v
          let (ow, h') := Word.mkOption inner OpCode.value vm.heap
          Except.ok { vm with stack := ow :: rest, heap := h' }
      | [] => Except.error (VMError.fault "stack underflow")
    | OpCode.wrapInOptionThis =>
      let cur := current.set_opcode OpCode.value
      match cur.tag? with
      | none => Except.error (VMError.fault "invalid tag")
      | some t =>
        let inner := if t = ValueTag.special then none else some cur
        let (ow, h') := Word.mkOption inner OpCode.value vm.heap
        Except.ok { vm with bytecode := vm.bytecode.set ipc cur,
                            stack := ow :: vm.stack, heap := h' }
    | OpCode.unwrapOption =>
      match vm.stack with
      | v :: rest =>
        match v.as_option? vm.heap with
        | none => Except.error (VMError.fault "as_option on a non-option word")
        | some none => Except.error (VMError.langulo "unwrap option from non-option value")
        | some (some inner) => Except.ok { vm with stack := inner :: rest }
      | [] => Except.error (VMError.fault "stack underflow")
    | OpCode.unwrapOptionThis =>
      match current.as_option? vm.heap with
      | none => Except.error (VMError.fault "as_option on a non-option word")
      | some none => Except.error (VMError.langulo "unwrap option from non-option value")
      | some (some inner) => Except.ok { vm with stack := inner :: vm.stack }
    | OpCode.indexGet =>
      match vm.stack with
      | value :: rest =>
        match rest with
        | key :: rest2 =>
          match value.as_table? vm.heap with
          | none => Except.error (VMError.fault "as_table on a non-table word")
          | some tbl =>
            let r := (tableGet tbl key).orElse (fun _ => tableGet tbl Word.DEFAULTTABLEARM)
            let (ow, h') := Word.mkOption r OpCode.value vm.heap
            Except.ok { vm with stack := ow :: rest2, heap := h' }
        | [] => Except.error (VMError.fault "stack underflow")
      | [] => Except.error (VMError.fault "called Option::unwrap on a None value")
    | OpCode.indexGetThis =>
      let cur := current.set_opcode OpCode.value
      match vm.stack with
      | value :: rest =>
        match value.as_table? vm.heap with
        | none => Except.error (VMError.fault "as_table on a non-table word")
        | some tbl =>
          let r := (tableGet tbl cur).orElse (fun _ => tableGet tbl Word.DEFAULTTABLEARM)
          let (ow, h') := Word.mkOption r OpCode.value vm.heap
          Except.ok { vm with bytecode := vm.bytecode.set ipc cur,
                              stack := ow :: rest, heap := h' }
      | [] => Except.error (VMError.fault "called Option::unwrap on a None value")
    | OpCode.readFromMap =>
      let map_idx := current.value
      match current.tag? with
      | none => Except.error (VMError.fault "invalid tag")
      | some ValueTag.floatPtr =>
        match vm.heap_floats[map_idx]? with
        | none => Except.error (VMError.fault "readfrommap pointing to invalid raw float")
        | some f =>
          let (w, h') := Word.float f OpCode.value vm.heap
          Except.ok { vm with stack := w :: vm.stack, heap := h' }
      | some ValueTag.strPtr =>
        match vm.heap_strings[map_idx]? with
        | none => Except.error (VMError.fault "readfrommap pointing to invalid raw string")
        | some none => Except.error (VMError.fault "string already taken")
        | some (some s) =>
          let (w, h') := Word.str s OpCode.value vm.heap
          Except.ok { vm with heap_strings := vm.heap_strings.set map_idx none,
                              stack := w :: vm.stack, heap := h' }
      | some ValueTag.tablePtr =>
        match popPairs current.value vm.stack with
        | none => Except.error (VMError.fault "stack underflow")
        | some (pairs, rest) =>
          let tbl := pairs.foldl (fun t kv => tableInsert t kv.1 kv.2) []
          let (w, h') := Word.mkTable tbl OpCode.value vm.heap
          Except.ok { vm with stack := w :: rest, heap := h' }
      | some _ => Except.error (VMError.langulo "reading from map a nonheap value")
    | _ => Except.error (VMError.fault "opcode not implemented")

/-- The `VM::run` dispatch loop, fuelled.  Each iteration reads
`bytecode[ip]` (panicking when out of bounds), increments `ip`, and either
breaks on `Stop` or dispatches; every implemented opcode advances `ip` by
exactly one, so `bytecode.length + 1 - ip` fuel always suffices. -/
def VM.runFuel {F : Type} [DecidableEq F] (fo : FloatOps F) :
    Nat → VM F → Except VMError (VM F)
  | 0, _ => Except.error (VMError.fault "out of fuel")
  | fuel + 1, vm =>
    match vm.bytecode[vm.ip]? with
    | none => Except.error (VMError.fault "index out of bounds")
    | some current =>
      if current.opcode? = some OpCode.stop then
        Except.ok { vm with ip := vm.ip + 1 }
      else
        match VM.step fo vm.ip current { vm with ip := vm.ip + 1 } with
        | Except.error e => Except.error e
        | Except.ok vm' => VM.runFuel fo fuel vm'

/-- `VM::run`. -/
def VM.run {F : Type} [DecidableEq F] (fo : FloatOps F) (vm : VM F) :
    Except VMError (VM F) :=
  VM.runFuel fo (vm.bytecode.length + 1 - vm.ip) vm

/-- `VM::finalize`: returns the top of the stack (`pop_value`), a VM error
when the stack is empty. -/
def VM.finalize {F : Type} (vm : VM F) : Except VMError Word :=
  match vm.stack with
  | top :: _ => Except.ok top
  | [] => Except.error (VMError.fault "stack underflow")

/-- Run to completion and take the final stack top. -/
def VM.runFinal {F : Type} [DecidableEq F] (fo : FloatOps F) (vm : VM F) :
    Except VMError Word := do
  let vm' ← VM.run fo vm
  vm'.finalize

/-- The observable part of a final state (everything except the
instruction pointer and the — possibly self-modified — bytecode). -/
def VM.obs {F : Type} (vm : VM F) :
    List Word × List Word × List F × List (Option ByteStr) × Heap F :=
  (vm.stack, vm.vars, vm.heap_floats, vm.heap_strings, vm.heap)

/-- A trivial float model, used to instantiate the VM at concrete inputs. -/
def natFloatOps : FloatOps Nat :=
  ⟨fun a b => a + b, fun a b => a - b, fun a b => a * b, fun a b => a / b,
   fun a b => a % b, fun a _ => a, Int.toNat, 0, fun a b => some (compare a b)⟩

/-- The syntax-tree node kinds the emitter handles (`AstNode` from
`parser/ast/node.rs`, restricted to the kinds `emit_node` implements, with
the data the emitter extracts from the node text/children made explicit).
Float literal text is abstracted to an already-parsed `F`. -/
inductive Ast (F : Type) where
  | intLit (v : Int)
  | boolLit (b : Bool)
  | charLit (c : Nat)
  | floatLit (f : F)
  | strLit (s : ByteStr)
  | table (pairs : List (Ast F × Ast F))
  | tableIndexing (indexand indexer : Ast F)
  | defaultKey
  | optionNode (inner : Option (Ast F))
  | unwrapOption (inner : Ast F)
  | add (lhs rhs : Ast F)
  | subtract (lhs rhs : Ast F)
  | multiply (lhs rhs : Ast F)
  | divide (lhs rhs : Ast F)
  | modulo (lhs rhs : Ast F)
  | logicalAnd (lhs rhs : Ast F)
  | logicalOr (lhs rhs : Ast F)
  | logicalXor (lhs rhs : Ast F)
  | print (operand : Ast F)
  | scope (children : List (Ast F))
  | grouping (inner : Ast F)
  | identifier (name : String)
  | varDecl (name : String) (init : Ast F)
  | ifNode (condition branch : Ast F)
  | elseNode (optionExpr fallback : Ast F)

/-- The `paste::paste! { OpCode::[<$opcode This>] }` concatenation used by
`push_embeddable!`: the embedded-operand variant of an opcode. -/
def OpCode.thisVariant : OpCode → OpCode
  | OpCode.print => OpCode.printThis
  | OpCode.cast => OpCode.castThis
  | OpCode.add => OpCode.addThis
  | OpCode.subtract => OpCode.subtractThis
  | OpCode.multiply => OpCode.multiplyThis
  | OpCode.divide => OpCode.divideThis
  | OpCode.modulo => OpCode.moduloThis
  | OpCode.power => OpCode.powerThis
  | OpCode.negate => OpCode.negateThis
  | OpCode.logicalAnd => OpCode.logicalAndThis
  | OpCode.logicalOr => OpCode.logicalOrThis
  | OpCode.logicalXor => OpCode.logicalXorThis
  | OpCode.greaterThan => OpCode.greaterThanThis
  | OpCode.lessThan => OpCode.lessThanThis
  | OpCode.equals => OpCode.equalsThis
  | OpCode.notEquals => OpCode.notEqualsThis
  | OpCode.greaterThanEq => OpCode.greaterThanEqThis
  | OpCode.lessThanEq => OpCode.lessThanEqThis
  | OpCode.setLocal => OpCode.setLocalThis
  | OpCode.wrapInOption => OpCode.wrapInOptionThis
  | OpCode.unwrapOption => OpCode.unwrapOptionThis
  | OpCode.indexGet => OpCode.indexGetThis
  | o => o

/-- The binary stack operators of the VM (those with both an `Op` and an
`OpThis` dispatch arm fed by the `*_inplace` functions). -/
def OpCode.isBinaryOp : OpCode → Bool
  | OpCode.add | OpCode.subtract | OpCode.multiply | OpCode.divide
  | OpCode.modulo | OpCode.power
  | OpCode.logicalAnd | OpCode.logicalOr | OpCode.logicalXor
  | OpCode.equals | OpCode.notEquals
  | OpCode.greaterThan | OpCode.lessThan
  | OpCode.greaterThanEq | OpCode.lessThanEq => true
  | _ => false

/-- `struct Emitter` (the parts `emit_node`/`write_to_stream` read and
write; the parser and type checker are out of scope). -/
structure Emitter (F : Type) where
  bytecode : List Word
  heap_floats : List F
  heap_strings : List ByteStr
  local_variables : List (String × Nat)
  curr_scope : Nat
deriving DecidableEq

/-- The empty emitter state produced by `Emitter::new`. -/
def Emitter.init {F : Type} : Emitter F := ⟨[], [], [], [], 0⟩

/-- `push_embeddable!($self, $word, $opcode)`. -/
def push_embeddable {F : Type} (e : Emitter F) (w : Word) (opcode : OpCode) :
    Word × Emitter F :=
  if w.is_embeddable then (w.set_opcode opcode.thisVariant, e)
  else (Word.int 0 opcode, { e with bytecode := e.bytecode ++ [w] })

/-- Append a Word to the bytecode (`self.bytecode.push(..)`). -/
def Emitter.push {F : Type} (e : Emitter F) (w : Word) : Emitter F :=
  { e with bytecode := e.bytecode ++ [w] }

/-- `self.bytecode.get_mut(i).unwrap().set_value(v as u32)` — the jump
fix-up; `none` models the `unwrap` panic on a bad index. -/
def patchValue (l : List Word) (i v : Nat) : Option (List Word) :=
  (l[i]?).map (fun w => l.set i (w.set_value (v % 2 ^ 32)))

/-- `Vec::iter().rposition` on the local-variable table. -/
def rposition (l : List (String × Nat)) (name : String) : Option Nat :=
  ((l.enum.filter (fun p => p.2.1 = name)).getLast?).map (fun p => p.1)

/-- The `for pair in node.children()` loop of the `Table` arm: emit and push
the key Word then the value Word of each pair. -/
def emitPairsWith {F : Type}
    (emit1 : Ast F → Emitter F → Except VMError (Word × Emitter F)) :
    List (Ast F × Ast F) → Emitter F → Except VMError (Emitter F)
  | [], e => Except.ok e
  | pr :: rest, e => do
    let (kw, e1) ← emit1 pr.1 e
    let (vw, e2) ← emit1 pr.2 (e1.push kw)
    emitPairsWith emit1 rest (e2.push vw)

/-- The `for child in node.children()` loop of the `Scope` arm (and of
`emit` at top level): emit each child and push its Word. -/
def emitSeqWith {F : Type}
    (emit1 : Ast F → Emitter F → Except VMError (Word × Emitter F)) :
    List (Ast F) → Emitter F → Except VMError (Emitter F)
  | [], e => Except.ok e
  | c :: rest, e => do
    let (w, e1) ← emit1 c e
    emitSeqWith emit1 rest (e1.push w)

/-- `Emitter::emit_node`, fuelled (the fuel only bounds the recursion depth;
any fuel at least the tree height gives the source semantics). -/
def emitNode {F : Type} : Nat → Ast F → Emitter F →
    Except VMError (Word × Emitter F)
  | 0, _, _ => Except.error (VMError.fault "out of fuel")
  | _ + 1, Ast.intLit v, e => Except.ok (Word.int v OpCode.value, e)
  | _ + 1, Ast.boolLit b, e => Except.ok (Word.bool b OpCode.value, e)
  | _ + 1, Ast.charLit c, e => Except.ok (Word.char c OpCode.value, e)
  | _ + 1, Ast.floatLit f, e =>
    let e' := { e with heap_floats := e.heap_floats ++ [f] }
    Except.ok (Word.raw_float (e'.heap_floats.length - 1), e')
  | _ + 1, Ast.strLit s, e =>
    -- the source returns `Word::new(0 as _, ReadFromMap, StrPtr)` with a
    -- constant 0 payload (not the index of the string it just pushed)
    Except.ok (Word.new 0 OpCode.readFromMap ValueTag.strPtr,
      { e with heap_strings := e.heap_strings ++ [s] })
  | fuel + 1, Ast.table pairs, e => do
    let e' ← emitPairsWith (emitNode fuel) pairs e
    Except.ok (Word.new pairs.length OpCode.readFromMap ValueTag.tablePtr, e')
  | fuel + 1, Ast.tableIndexing a i, e => do
    let (wa, e1) ← emitNode fuel a e
    let (wi, e2) ← emitNode fuel i (e1.push wa)
    Except.ok (push_embeddable e2 wi OpCode.indexGet)
  | _ + 1, Ast.defaultKey, e => Except.ok (Word.DEFAULTTABLEARM, e)
  | fuel + 1, Ast.optionNode inner, e =>
    match inner with
    | some t => do
      let (w, e1) ← emitNode fuel t e
      Except.ok (push_embeddable e1 w OpCode.wrapInOption)
    | none => Except.ok (push_embeddable e Word.NOOPTION OpCode.wrapInOption)
  | fuel + 1, Ast.unwrapOption t, e => do
    let (w, e1) ← emitNode fuel t e
    Except.ok (push_embeddable e1 w OpCode.unwrapOption)
  | fuel + 1, Ast.add l r, e => do
    let (lw, e1) ← emitNode fuel l e
    let (rw, e2) ← emitNode fuel r (e1.push lw)
    Except.ok (push_embeddable e2 rw OpCode.add)
  | fuel + 1, Ast.subtract l r, e => do
    let (lw, e1) ← emitNode fuel l e
    let (rw, e2) ← emitNode fuel r (e1.push lw)
    Except.ok (push_embeddable e2 rw OpCode.subtract)
  | fuel + 1, Ast.multiply l r, e => do
    let (lw, e1) ← emitNode fuel l e
    let (rw, e2) ← emitNode fuel r (e1.push lw)
    Except.ok (push_embeddable e2 rw OpCode.multiply)
  | fuel + 1, Ast.divide l r, e => do
    let (lw, e1) ← emitNode fuel l e
    let (rw, e2) ← emitNode fuel r (e1.push lw)
    Except.ok (push_embeddable e2 rw OpCode.divide)
  | fuel + 1, Ast.modulo l r, e => do
    let (lw, e1) ← emitNode fuel l e
    let (rw, e2) ← emitNode fuel r (e1.push lw)
    Except.ok (push_embeddable e2 rw OpCode.modulo)
  | fuel + 1, Ast.logicalAnd l r, e => do
    let (lw, e1) ← emitNode fuel l e
    let (rw, e2) ← emitNode fuel r (e1.push lw)
    Except.ok (push_embeddable e2 rw OpCode.logicalAnd)
  | fuel + 1, Ast.logicalOr l r, e => do
    let (lw, e1) ← emitNode fuel l e
    let (rw, e2) ← emitNode fuel r (e1.push lw)
    Except.ok (push_embeddable e2 rw OpCode.logicalOr)
  | fuel + 1, Ast.logicalXor l r, e => do
    let (lw, e1) ← emitNode fuel l e
    let (rw, e2) ← emitNode fuel r (e1.push lw)
    Except.ok (push_embeddable e2 rw OpCode.logicalXor)
  | fuel + 1, Ast.print t, e => do
    let (w, e1) ← emitNode fuel t e
    Except.ok (push_embeddable e1 w OpCode.print)
  | fuel + 1, Ast.scope children, e => do
    let e1 := { e with curr_scope := e.curr_scope + 1 }
    let e2 ← emitSeqWith (emitNode fuel) children e1
    Except.ok (Word.int 0 OpCode.print, { e2 with curr_scope := e2.curr_scope - 1 })
  | fuel + 1, Ast.grouping t, e => emitNode fuel t e
  | _ + 1, Ast.identifier name, e =>
    match rposition e.local_variables name with
    | some idx => Except.ok ((Word.int 0 OpCode.getLocal).set_aux idx, e)
    | none => Except.error (VMError.fault "did not find varname in already defined vars")
  | fuel + 1, Ast.varDecl name init, e => do
    let e0 := { e with local_variables := e.local_variables ++ [(name, e.curr_scope)] }
    let (w, e1) ← emitNode fuel init e0
    if w.is_embeddable then Except.ok (w.set_opcode OpCode.setLocalThis, e1)
    else Except.ok (Word.int 0 OpCode.setLocal, e1.push w)
  | fuel + 1, Ast.ifNode cond branch, e => do
    let (cw, e1) ← emitNode fuel cond e
    let e2 := e1.push cw
    let jump_idx := e2.bytecode.length
    let e3 := e2.push (Word.int 0 OpCode.jumpIfFalse)
    let len_before_branch := e3.bytecode.length
    let (bw, e4) ← emitNode fuel branch e3
    let instructions_to_jump := e4.bytecode.length - len_before_branch + 2
    match patchValue e4.bytecode jump_idx instructions_to_jump with
    | none => Except.error (VMError.fault "called Option::unwrap on a None value")
    | some patched =>
      Except.ok (push_embeddable { e4 with bytecode := patched } bw OpCode.wrapInOption)
  | fuel + 1, Ast.elseNode optionExpr fallback, e => do
    let (ow, e1) ← emitNode fuel optionExpr e
    let e2 := e1.push ow
    let jump_idx := e2.bytecode.length
    let e3 := e2.push (Word.int 0 OpCode.jumpIfNo)
    let len_before_branch := e3.bytecode.length
    let (bw, e4) ← emitNode fuel fallback e3
    -- +1 instead of +2: the branch result is not post-processed as in If
    let instructions_to_jump := e4.bytecode.length - len_before_branch + 1
    match patchValue e4.bytecode jump_idx instructions_to_jump with
    | none => Except.error (VMError.fault "called Option::unwrap on a None value")
    | some patched => Except.ok (bw, { e4 with bytecode := patched })

/-- `Emitter::emit`: emit and push every top-level child, then append the
`Stop` Word. -/
def Emitter.emit {F : Type} (fuel : Nat) (roots : List (Ast F)) (e : Emitter F) :
    Except VMError (Emitter F) := do
  let e' ← emitSeqWith (emitNode fuel) roots e
  Except.ok (e'.push (Word.int 0 OpCode.stop))

/-- Indexing predicate: `n` is one of the eight binary-operation node kinds
the emitter lowers through `emit_binary!`, with operator opcode `op` and
children `l`, `r`. -/
inductive IsBinaryNode {F : Type} : Ast F → OpCode → Ast F → Ast F → Prop where
  | add (l r : Ast F) : IsBinaryNode (Ast.add l r) OpCode.add l r
  | subtract (l r : Ast F) : IsBinaryNode (Ast.subtract l r) OpCode.subtract l r
  | multiply (l r : Ast F) : IsBinaryNode (Ast.multiply l r) OpCode.multiply l r
  | divide (l r : Ast F) : IsBinaryNode (Ast.divide l r) OpCode.divide l r
  | modulo (l r : Ast F) : IsBinaryNode (Ast.modulo l r) OpCode.modulo l r
  | logicalAnd (l r : Ast F) :
      IsBinaryNode (Ast.logicalAnd l r) OpCode.logicalAnd l r
  | logicalOr (l r : Ast F) :
      IsBinaryNode (Ast.logicalOr l r) OpCode.logicalOr l r
  | logicalXor (l r : Ast F) :
      IsBinaryNode (Ast.logicalXor l r) OpCode.logicalXor l r

/-- `u32::to_le_bytes` (after an `as u32` truncation). -/
def u32le (n : Nat) : List Nat :=
  [n % 256, n / 2 ^ 8 % 256, n / 2 ^ 16 % 256, n / 2 ^ 24 % 256]

/-- `u64::to_le_bytes`. -/
def u64le (n : Nat) : List Nat :=
  [n % 256, n / 2 ^ 8 % 256, n / 2 ^ 16 % 256, n / 2 ^ 24 % 256,
   n / 2 ^ 32 % 256, n / 2 ^ 40 % 256, n / 2 ^ 48 % 256, n / 2 ^ 56 % 256]

/-- Little-endian value of a byte list (`from_le_bytes`). -/
def leVal (bs : List Nat) : Nat := bs.foldr (fun b acc => b + 256 * acc) 0

/-- The bit-exact `f64` byte codec, abstracted: `to_le_bytes` and
`from_le_bytes` on `f64` are mutually inverse bijections between floats and
8-byte chunks, which a concrete instantiation must provide. -/
structure F64Codec (F : Type) where
  toLe : F → List Nat
  ofLe : List Nat → F

/-- `Emitter::write_to_stream`: the section-framed little-endian binary
format (`0x01` words, `0x02` floats, `0x03` strings, `0x04` variable
count). -/
def Emitter.write_to_stream {F : Type} (c : F64Codec F) (e : Emitter F) :
    List Nat :=
  [0x01] ++ u32le e.bytecode.length
    ++ e.bytecode.foldr (fun w acc => u64le w.raw ++ acc) []
    ++ [0x02] ++ u32le e.heap_floats.length
    ++ e.heap_floats.foldr (fun f acc => c.toLe f ++ acc) []
    ++ [0x03] ++ u32le e.heap_strings.length
    ++ e.heap_strings.foldr (fun s acc => u32le s.length ++ s ++ acc) []
    ++ [0x04] ++ u32le e.local_variables.length

/-- `read_exact` into a `k`-byte buffer: an EOF is an `io::Result` error. -/
def readChunk (k : Nat) (bs : List Nat) :
    Except VMError (List Nat × List Nat) :=
  if bs.length < k then Except.error (VMError.fault "failed to fill whole buffer")
  else Except.ok (bs.take k, bs.drop k)

/-- `read_u32`. -/
def readU32 (bs : List Nat) : Except VMError (Nat × List Nat) := do
  let (chunk, rest) ← readChunk 4 bs
  Except.ok (leVal chunk, rest)

/-- The `for _ in 0..bytecode_len` word-reading loop of
`VM::from_compiled_stream`. -/
def readWords : Nat → List Nat → Except VMError (List Word × List Nat)
  | 0, bs => Except.ok ([], bs)
  | n + 1, bs => do
    let (chunk, rest) ← readChunk 8 bs
    let (ws, rest') ← readWords n rest
    Except.ok (Word.from_u64 (leVal chunk) :: ws, rest')

/-- The float-reading loop (`read_f64` is `from_le_bytes` on an 8-byte
chunk). -/
def readFloats {F : Type} (c : F64Codec F) : Nat → List Nat →
    Except VMError (List F × List Nat)
  | 0, bs => Except.ok ([], bs)
  | n + 1, bs => do
    let (chunk, rest) ← readChunk 8 bs
    let (fs, rest') ← readFloats c n rest
    Except.ok (c.ofLe chunk :: fs, rest')

/-- Is a continuation byte (`0x80..=0xBF`)? -/
def utf8Cont (b : Nat) : Bool := decide (0x80 ≤ b) && decide (b ≤ 0xBF)

/-- UTF-8 validity of a byte string, as checked by `String::from_utf8`
(RFC 3629: no overlong forms, no surrogates, max `U+10FFFF`). -/
def utf8Valid : List Nat → Bool
  | [] => true
  | b :: rest =>
    if b ≤ 0x7F then utf8Valid rest
    else if 0xC2 ≤ b && b ≤ 0xDF then
      match rest with
      | c1 :: r => utf8Cont c1 && utf8Valid r
      | _ => false
    else if b = 0xE0 then
      match rest with
      | c1 :: c2 :: r =>
        decide (0xA0 ≤ c1) && decide (c1 ≤ 0xBF) && utf8Cont c2 && utf8Valid r
      | _ => false
    else if (0xE1 ≤ b && b ≤ 0xEC) || b = 0xEE || b = 0xEF then
      match rest with
      | c1 :: c2 :: r => utf8Cont c1 && utf8Cont c2 && utf8Valid r
      | _ => false
    else if b = 0xED then
      match rest with
      | c1 :: c2 :: r =>
        decide (0x80 ≤ c1) && decide (c1 ≤ 0x9F) && utf8Cont c2 && utf8Valid r
      | _ => false
    else if b = 0xF0 then
      match rest with
      | c1 :: c2 :: c3 :: r =>
        decide (0x90 ≤ c1) && decide (c1 ≤ 0xBF) && utf8Cont c2 && utf8Cont c3
          && utf8Valid r
      | _ => false
    else if 0xF1 ≤ b && b ≤ 0xF3 then
      match rest with
      | c1 :: c2 :: c3 :: r =>
        utf8Cont c1 && utf8Cont c2 && utf8Cont c3 && utf8Valid r
      | _ => false
    else if b = 0xF4 then
      match rest with
      | c1 :: c2 :: c3 :: r =>
        decide (0x80 ≤ c1) && decide (c1 ≤ 0x8F) && utf8Cont c2 && utf8Cont c3
          && utf8Valid r
      | _ => false
    else false

/-- The string-reading loop (`String::from_utf8(..).expect` panics on
invalid UTF-8). -/
def readStrings : Nat → List Nat → Except VMError (List ByteStr × List Nat)
  | 0, bs => Except.ok ([], bs)
  | n + 1, bs => do
    let (len, rest) ← readU32 bs
    let (chunk, rest') ← readChunk len rest
    if utf8Valid chunk then do
      let (ss, rest'') ← readStrings n rest'
      Except.ok (chunk :: ss, rest'')
    else Except.error (VMError.fault "Invalid UTF-8 data")

/-- `VM::from_compiled_stream`: parse the section-framed byte stream and
build a VM (strings enter the pool wrapped in `Some`); a wrong framing byte
is an `assert_eq!` panic. -/
def VM.from_compiled_stream {F : Type} (c : F64Codec F) (bs : List Nat) :
    Except VMError (VM F) := do
  let (sid, bs1) ← readChunk 1 bs
  if sid ≠ [0x01] then Except.error (VMError.fault "Invalid compiled stream") else do
  let (bytecode_len, bs2) ← readU32 bs1
  let (bytecode, bs3) ← readWords bytecode_len bs2
  let (sid2, bs4) ← readChunk 1 bs3
  if sid2 ≠ [0x02] then Except.error (VMError.fault "Invalid compiled stream") else do
  let (floats_len, bs5) ← readU32 bs4
  let (heap_floats, bs6) ← readFloats c floats_len bs5
  let (sid3, bs7) ← readChunk 1 bs6
  if sid3 ≠ [0x03] then Except.error (VMError.fault "Invalid compiled stream") else do
  let (num_strings, bs8) ← readU32 bs7
  let (strings, bs9) ← readStrings num_strings bs8
  let (sid4, bs10) ← readChunk 1 bs9
  if sid4 ≠ [0x04] then Except.error (VMError.fault "Invalid compiled stream") else do
  let (_num_vars, _bs11) ← readU32 bs10
  Except.ok ⟨bytecode, [], [], 0, heap_floats, strings.map some, []⟩

/-! ## Lemmas: enums and the bit layout of `Word` -/

theorem OpCode.ofNat_toNat (o : OpCode) : OpCode.ofNat? o.toNat = some o := by
  cases o <;> rfl

theorem OpCode.toNat_lt (o : OpCode) : o.toNat < 2 ^ 6 := by
  cases o <;> decide

theorem ValueTag.ofNat_toNat_tag (t : ValueTag) : ValueTag.ofNat? t.toNat = some t := by
  cases t <;> rfl

theorem ValueTag.toNat_lt_tag (t : ValueTag) : t.toNat < 2 ^ 4 := by
  cases t <;> decide

theorem testBit_small {x n i : Nat} (hx : x < 2 ^ n) (h : n ≤ i) :
    x.testBit i = false :=
  Nat.testBit_lt_two_pow (lt_of_lt_of_le hx (Nat.pow_le_pow_right (by omega) h))

theorem testBit_win (k n i : Nat) :
    ((2 ^ n - 1) <<< k).testBit i = (decide (k ≤ i) && decide (i < k + n)) := by
  rw [Nat.testBit_shiftLeft, Nat.testBit_two_pow_sub_one]
  by_cases h : k ≤ i
  · have h1 : (decide (i ≥ k)) = true := by simpa using h
    rw [h1, Bool.true_and, Bool.true_and, decide_eq_decide]
    omega
  · have h1 : (decide (i ≥ k)) = false := by simpa using h
    rw [h1, Bool.false_and, Bool.false_and]

theorem TAG_MASK_win : TAG_MASK = (2 ^ 4 - 1) <<< 0 := by decide
theorem OPCODE_MASK_win : OPCODE_MASK = (2 ^ 6 - 1) <<< 4 := by decide
theorem AUX_MASK_win : AUX_MASK = (2 ^ 22 - 1) <<< 10 := by decide
theorem PTR_MASK_win : PTR_MASK = (2 ^ 32 - 1) <<< 32 := by decide

theorem testBit_MASK64 (i : Nat) : MASK64.testBit i = decide (i < 64) := by
  have h : MASK64 = 2 ^ 64 - 1 := rfl
  rw [h, Nat.testBit_two_pow_sub_one]

theorem testBit_not64 (m i : Nat) :
    (not64 m).testBit i = (decide (i < 64) ^^ m.testBit i) := by
  rw [not64, Nat.testBit_xor, testBit_MASK64]

/-- Bitwise description of `Word.value`. -/
theorem testBit_value (w : Word) (i : Nat) :
    w.value.testBit i = (w.raw.testBit (32 + i) && decide (i < 32)) := by
  rw [Word.value, PTR_MASK_win]
  show ((w.raw &&& (2 ^ 32 - 1) <<< 32) >>> 32).testBit i = _
  rw [Nat.testBit_shiftRight, Nat.testBit_and, testBit_win]
  by_cases h : i < 32
  · have h1 : 32 ≤ 32 + i := by omega
    have h2 : 32 + i < 32 + 32 := by omega
    simp [h, h1, h2]
  · have h2 : ¬(32 + i < 32 + 32) := by omega
    simp [h, h2]

/-- Bitwise description of `Word.aux`. -/
theorem testBit_aux (w : Word) (i : Nat) :
    w.aux.testBit i = (w.raw.testBit (10 + i) && decide (i < 22)) := by
  rw [Word.aux, AUX_MASK_win]
  show ((w.raw &&& (2 ^ 22 - 1) <<< 10) >>> 10).testBit i = _
  rw [Nat.testBit_shiftRight, Nat.testBit_and, testBit_win]
  by_cases h : i < 22
  · have h1 : 10 ≤ 10 + i := by omega
    have h2 : 10 + i < 10 + 22 := by omega
    simp [h, h1, h2]
  · have h2 : ¬(10 + i < 10 + 22) := by omega
    simp [h, h2]

/-- Bitwise description of `Word.opcodeNat`. -/
theorem testBit_opcodeNat (w : Word) (i : Nat) :
    w.opcodeNat.testBit i = (w.raw.testBit (4 + i) && decide (i < 6)) := by
  rw [Word.opcodeNat, OPCODE_MASK_win]
  show ((w.raw &&& (2 ^ 6 - 1) <<< 4) >>> 4).testBit i = _
  rw [Nat.testBit_shiftRight, Nat.testBit_and, testBit_win]
  by_cases h : i < 6
  · have h1 : 4 ≤ 4 + i := by omega
    have h2 : 4 + i < 4 + 6 := by omega
    simp [h, h1, h2]
  · have h2 : ¬(4 + i < 4 + 6) := by omega
    simp [h, h2]

/-- Bitwise description of `Word.tagNat`. -/
theorem testBit_tagNat (w : Word) (i : Nat) :
    w.tagNat.testBit i = (w.raw.testBit i && decide (i < 4)) := by
  rw [Word.tagNat, TAG_MASK_win]
  show (w.raw &&& (2 ^ 4 - 1) <<< 0).testBit i = _
  rw [Nat.testBit_and, testBit_win]
  by_cases h : i < 4
  · simp [h]
  · simp [h]

/-- Writing a `w`-bit value `y` into the window starting at bit `k`
(the common shape of all the Word setters). -/
theorem testBit_masked_set (x y k w i : Nat) (hw : k + w ≤ 64) (hy : y < 2 ^ w) :
    ((x &&& not64 ((2 ^ w - 1) <<< k)) ||| (y <<< k)).testBit i =
      if k ≤ i ∧ i < k + w then y.testBit (i - k)
      else (x.testBit i && decide (i < 64)) := by
  rw [Nat.testBit_or, Nat.testBit_and, testBit_not64, testBit_win,
    Nat.testBit_shiftLeft]
  by_cases h1 : k ≤ i
  · by_cases h2 : i < k + w
    · have hi : i < 64 := by omega
      rw [if_pos ⟨h1, h2⟩]
      simp [h1, h2, hi]
    · have hy' : y.testBit (i - k) = false := testBit_small hy (by omega)
      rw [if_neg (by omega)]
      simp [h1, h2, hy']
  · rw [if_neg (by omega)]
    simp [h1]

theorem and_and_lt64 (X : Bool) (s c i : Nat) (h : s + c ≤ 64) :
    ((X && decide (s + i < 64)) && decide (i < c)) = (X && decide (i < c)) := by
  by_cases hc : i < c
  · have h64 : s + i < 64 := by omega
    simp [hc, h64]
  · simp [hc]

/-- Bitwise description of `Word.set_tag`. -/
theorem testBit_set_tag (word : Word) (t : ValueTag) (i : Nat) :
    (word.set_tag t).raw.testBit i =
      if i < 4 then t.toNat.testBit i
      else (word.raw.testBit i && decide (i < 64)) := by
  rw [show (word.set_tag t).raw
      = (word.raw &&& not64 ((2 ^ 4 - 1) <<< 0)) ||| (t.toNat <<< 0) from rfl,
    testBit_masked_set _ _ 0 4 _ (by omega) t.toNat_lt_tag]
  by_cases h : i < 4
  · rw [if_pos (by omega), if_pos h, Nat.sub_zero]
  · rw [if_neg (by omega), if_neg h]

/-- Bitwise description of `Word.set_opcode`. -/
theorem testBit_set_opcode (word : Word) (o : OpCode) (i : Nat) :
    (word.set_opcode o).raw.testBit i =
      if 4 ≤ i ∧ i < 10 then o.toNat.testBit (i - 4)
      else (word.raw.testBit i && decide (i < 64)) := by
  rw [show (word.set_opcode o).raw
      = (word.raw &&& not64 ((2 ^ 6 - 1) <<< 4)) ||| (o.toNat <<< 4) from rfl,
    testBit_masked_set _ _ 4 6 _ (by omega) o.toNat_lt]

/-- Bitwise description of `Word.set_aux` for an in-range aux argument. -/
theorem testBit_set_aux (word : Word) (a i : Nat) (ha : a < 2 ^ 22) :
    (word.set_aux a).raw.testBit i =
      if 10 ≤ i ∧ i < 32 then a.testBit (i - 10)
      else (word.raw.testBit i && decide (i < 64)) := by
  rw [show (word.set_aux a).raw
      = (word.raw &&& not64 ((2 ^ 22 - 1) <<< 10)) ||| (a <<< 10) from rfl,
    testBit_masked_set _ _ 10 22 _ (by omega) ha]

/-- Bitwise description of `Word.set_value` for a `u32` argument. -/
theorem testBit_set_value (word : Word) (v i : Nat) (hv : v < 2 ^ 32) :
    (word.set_value v).raw.testBit i =
      if 32 ≤ i ∧ i < 64 then v.testBit (i - 32)
      else (word.raw.testBit i && decide (i < 64)) := by
  rw [show (word.set_value v).raw
      = (word.raw &&& not64 ((2 ^ 32 - 1) <<< 32)) ||| (v <<< 32) from rfl,
    testBit_masked_set _ _ 32 32 _ (by omega) hv]

theorem Word.set_tag_value (w : Word) (t : ValueTag) :
    (w.set_tag t).value = w.value := by
  apply Nat.eq_of_testBit_eq
  intro i
  rw [testBit_value, testBit_value, testBit_set_tag, if_neg (by omega)]
  exact and_and_lt64 _ 32 32 i (by omega)

theorem Word.set_tag_aux (w : Word) (t : ValueTag) :
    (w.set_tag t).aux = w.aux := by
  apply Nat.eq_of_testBit_eq
  intro i
  rw [testBit_aux, testBit_aux, testBit_set_tag, if_neg (by omega)]
  exact and_and_lt64 _ 10 22 i (by omega)

theorem Word.set_tag_opcodeNat (w : Word) (t : ValueTag) :
    (w.set_tag t).opcodeNat = w.opcodeNat := by
  apply Nat.eq_of_testBit_eq
  intro i
  rw [testBit_opcodeNat, testBit_opcodeNat, testBit_set_tag, if_neg (by omega)]
  exact and_and_lt64 _ 4 6 i (by omega)

theorem Word.set_tag_tagNat (w : Word) (t : ValueTag) :
    (w.set_tag t).tagNat = t.toNat := by
  apply Nat.eq_of_testBit_eq
  intro i
  rw [testBit_tagNat, testBit_set_tag]
  by_cases h : i < 4
  · simp [h]
  · have hb : t.toNat.testBit i = false := testBit_small t.toNat_lt_tag (by omega)
    simp [h, hb]

theorem Word.set_opcode_value (w : Word) (o : OpCode) :
    (w.set_opcode o).value = w.value := by
  apply Nat.eq_of_testBit_eq
  intro i
  rw [testBit_value, testBit_value, testBit_set_opcode, if_neg (by omega)]
  exact and_and_lt64 _ 32 32 i (by omega)

theorem Word.set_opcode_aux (w : Word) (o : OpCode) :
    (w.set_opcode o).aux = w.aux := by
  apply Nat.eq_of_testBit_eq
  intro i
  rw [testBit_aux, testBit_aux, testBit_set_opcode, if_neg (by omega)]
  exact and_and_lt64 _ 10 22 i (by omega)

theorem Word.set_opcode_tagNat (w : Word) (o : OpCode) :
    (w.set_opcode o).tagNat = w.tagNat := by
  apply Nat.eq_of_testBit_eq
  intro i
  rw [testBit_tagNat, testBit_tagNat, testBit_set_opcode]
  by_cases h : i < 4
  · rw [if_neg (by omega)]
    have h64 : i < 64 := by omega
    simp [h, h64]
  · simp [h]

theorem Word.set_opcode_opcodeNat (w : Word) (o : OpCode) :
    (w.set_opcode o).opcodeNat = o.toNat := by
  apply Nat.eq_of_testBit_eq
  intro i
  rw [testBit_opcodeNat, testBit_set_opcode]
  by_cases h : i < 6
  · rw [if_pos (by omega)]
    have e : 4 + i - 4 = i := by omega
    simp [e, h]
  · have hb : o.toNat.testBit i = false := testBit_small o.toNat_lt (by omega)
    rw [if_neg (by omega), hb]
    simp [h]

theorem Word.set_aux_value (w : Word) (a : Nat) (ha : a < 2 ^ 22) :
    (w.set_aux a).value = w.value := by
  apply Nat.eq_of_testBit_eq
  intro i
  rw [testBit_value, testBit_value, testBit_set_aux _ _ _ ha, if_neg (by omega)]
  exact and_and_lt64 _ 32 32 i (by omega)

theorem Word.set_aux_tagNat (w : Word) (a : Nat) (ha : a < 2 ^ 22) :
    (w.set_aux a).tagNat = w.tagNat := by
  apply Nat.eq_of_testBit_eq
  intro i
  rw [testBit_tagNat, testBit_tagNat, testBit_set_aux _ _ _ ha]
  by_cases h : i < 4
  · rw [if_neg (by omega)]
    have h64 : i < 64 := by omega
    simp [h, h64]
  · simp [h]

theorem Word.set_aux_opcodeNat (w : Word) (a : Nat) (ha : a < 2 ^ 22) :
    (w.set_aux a).opcodeNat = w.opcodeNat := by
  apply Nat.eq_of_testBit_eq
  intro i
  rw [testBit_opcodeNat, testBit_opcodeNat, testBit_set_aux _ _ _ ha]
  by_cases h : i < 6
  · rw [if_neg (by omega)]
    have h64 : 4 + i < 64 := by omega
    simp [h, h64]
  · simp [h]

theorem Word.set_aux_aux (w : Word) (a : Nat) (ha : a < 2 ^ 22) :
    (w.set_aux a).aux = a := by
  apply Nat.eq_of_testBit_eq
  intro i
  rw [testBit_aux, testBit_set_aux _ _ _ ha]
  by_cases h : i < 22
  · rw [if_pos (by omega)]
    have e : 10 + i - 10 = i := by omega
    simp [e, h]
  · have hb : a.testBit i = false := testBit_small ha (by omega)
    rw [if_neg (by omega), hb]
    simp [h]

theorem Word.set_value_value (w : Word) (v : Nat) (hv : v < 2 ^ 32) :
    (w.set_value v).value = v := by
  apply Nat.eq_of_testBit_eq
  intro i
  rw [testBit_value, testBit_set_value _ _ _ hv]
  by_cases h : i < 32
  · rw [if_pos (by omega)]
    have e : 32 + i - 32 = i := by omega
    simp [e, h]
  · have hb : v.testBit i = false := testBit_small hv (by omega)
    rw [if_neg (by omega), hb]
    simp [h]

theorem Word.set_value_aux (w : Word) (v : Nat) (hv : v < 2 ^ 32) :
    (w.set_value v).aux = w.aux := by
  apply Nat.eq_of_testBit_eq
  intro i
  rw [testBit_aux, testBit_aux, testBit_set_value _ _ _ hv]
  by_cases h : i < 22
  · rw [if_neg (by omega)]
    have h64 : 10 + i < 64 := by omega
    simp [h, h64]
  · simp [h]

theorem Word.set_value_opcodeNat (w : Word) (v : Nat) (hv : v < 2 ^ 32) :
    (w.set_value v).opcodeNat = w.opcodeNat := by
  apply Nat.eq_of_testBit_eq
  intro i
  rw [testBit_opcodeNat, testBit_opcodeNat, testBit_set_value _ _ _ hv]
  by_cases h : i < 6
  · rw [if_neg (by omega)]
    have h64 : 4 + i < 64 := by omega
    simp [h, h64]
  · simp [h]

theorem Word.set_value_tagNat (w : Word) (v : Nat) (hv : v < 2 ^ 32) :
    (w.set_value v).tagNat = w.tagNat := by
  apply Nat.eq_of_testBit_eq
  intro i
  rw [testBit_tagNat, testBit_tagNat, testBit_set_value _ _ _ hv]
  by_cases h : i < 4
  · rw [if_neg (by omega)]
    have h64 : i < 64 := by omega
    simp [h, h64]
  · simp [h]

/-- Bitwise description of `Word.new`. -/
theorem testBit_new (p : Nat) (o : OpCode) (t : ValueTag) (i : Nat) :
    (Word.new p o t).raw.testBit i =
      if 32 ≤ i ∧ i < 64 then p.testBit (i - 32)
      else if 4 ≤ i ∧ i < 10 then o.toNat.testBit (i - 4)
      else if i < 4 then t.toNat.testBit i
      else false := by
  rw [show (Word.new p o t).raw
      = (((p <<< 32) &&& ((2 ^ 32 - 1) <<< 32))
          ||| ((o.toNat <<< 4) &&& ((2 ^ 6 - 1) <<< 4)))
          ||| (t.toNat &&& ((2 ^ 4 - 1) <<< 0)) from rfl]
  rw [Nat.testBit_or, Nat.testBit_or, Nat.testBit_and, Nat.testBit_and,
    Nat.testBit_and, testBit_win, testBit_win, testBit_win,
    Nat.testBit_shiftLeft, Nat.testBit_shiftLeft]
  by_cases h1 : i < 4
  · rw [if_neg (by omega), if_neg (by omega), if_pos h1]
    simp [h1, (show ¬(32 ≤ i) from by omega), (show ¬(4 ≤ i) from by omega)]
  · by_cases h2 : i < 10
    · rw [if_neg (by omega), if_pos (by omega)]
      simp [h1, h2, (show ¬(32 ≤ i) from by omega), (show 4 ≤ i from by omega)]
    · by_cases h3 : i < 32
      · rw [if_neg (by omega), if_neg (by omega), if_neg (by omega)]
        simp [h1, h2, (show ¬(32 ≤ i) from by omega)]
      · by_cases h4 : i < 64
        · rw [if_pos (by omega)]
          simp [h1, h2, h4, (show 32 ≤ i from by omega)]
        · rw [if_neg (by omega), if_neg (by omega), if_neg (by omega)]
          simp [h1, h2, h4]

theorem Word.new_value (p : Nat) (o : OpCode) (t : ValueTag) :
    (Word.new p o t).value = p % 2 ^ 32 := by
  apply Nat.eq_of_testBit_eq
  intro i
  rw [testBit_value, testBit_new, Nat.testBit_mod_two_pow]
  by_cases h : i < 32
  · rw [if_pos (by omega)]
    have e : 32 + i - 32 = i := by omega
    simp [e, h]
  · rw [if_neg (by omega), if_neg (by omega), if_neg (by omega)]
    simp [h]

theorem Word.new_aux (p : Nat) (o : OpCode) (t : ValueTag) :
    (Word.new p o t).aux = 0 := by
  apply Nat.eq_of_testBit_eq
  intro i
  rw [testBit_aux, testBit_new, Nat.zero_testBit]
  by_cases h : i < 22
  · rw [if_neg (by omega), if_neg (by omega), if_neg (by omega)]
    simp
  · simp [h]

theorem Word.new_opcodeNat (p : Nat) (o : OpCode) (t : ValueTag) :
    (Word.new p o t).opcodeNat = o.toNat := by
  apply Nat.eq_of_testBit_eq
  intro i
  rw [testBit_opcodeNat]
  by_cases h : i < 6
  · rw [testBit_new, if_neg (by omega), if_pos (by omega)]
    have e : 4 + i - 4 = i := by omega
    simp [e, h]
  · have hb : o.toNat.testBit i = false := testBit_small o.toNat_lt (by omega)
    simp [h, hb]

theorem Word.new_tagNat (p : Nat) (o : OpCode) (t : ValueTag) :
    (Word.new p o t).tagNat = t.toNat := by
  apply Nat.eq_of_testBit_eq
  intro i
  rw [testBit_tagNat, testBit_new]
  by_cases h : i < 4
  · rw [if_neg (by omega), if_neg (by omega), if_pos h]
    simp [h]
  · have hb : t.toNat.testBit i = false := testBit_small t.toNat_lt_tag (by omega)
    simp [h, hb]

/-- Bitwise description of `Word.update_stack_value` for a `u32` value. -/
theorem testBit_update_stack_value (word : Word) (v : Nat) (o : OpCode)
    (i : Nat) (hv : v < 2 ^ 32) :
    (word.update_stack_value v o).raw.testBit i =
      if 32 ≤ i ∧ i < 64 then v.testBit (i - 32)
      else if 4 ≤ i ∧ i < 10 then o.toNat.testBit (i - 4)
      else (word.raw.testBit i && decide (i < 64)) := by
  rw [show (word.update_stack_value v o).raw
      = ((word.raw &&& not64 ((2 ^ 32 - 1) <<< 32)) &&& not64 ((2 ^ 6 - 1) <<< 4))
          ||| (v <<< 32) ||| ((o.toNat <<< 4) &&& ((2 ^ 6 - 1) <<< 4)) from rfl]
  rw [Nat.testBit_or, Nat.testBit_or, Nat.testBit_and, Nat.testBit_and,
    Nat.testBit_and, testBit_not64, testBit_not64, testBit_win, testBit_win,
    Nat.testBit_shiftLeft, Nat.testBit_shiftLeft]
  by_cases h1 : i < 4
  · rw [if_neg (by omega), if_neg (by omega)]
    simp [h1, (show ¬(32 ≤ i) from by omega), (show ¬(4 ≤ i) from by omega),
      (show i < 64 from by omega)]
  · by_cases h2 : i < 10
    · rw [if_neg (by omega), if_pos (by omega)]
      simp [h2, (show ¬(32 ≤ i) from by omega), (show 4 ≤ i from by omega),
        (show i < 64 from by omega)]
    · by_cases h3 : i < 32
      · rw [if_neg (by omega), if_neg (by omega)]
        simp [h2, (show ¬(32 ≤ i) from by omega), (show i < 64 from by omega)]
      · by_cases h4 : i < 64
        · rw [if_pos (by omega)]
          simp [h2, h4, (show 32 ≤ i from by omega), (show ¬(i < 10) from h2)]
        · have hb : v.testBit (i - 32) = false := testBit_small hv (by omega)
          rw [if_neg (by omega), if_neg (by omega), hb]
          simp [h2, h4]

theorem Word.update_stack_value_value (w : Word) (v : Nat) (o : OpCode)
    (hv : v < 2 ^ 32) : (w.update_stack_value v o).value = v := by
  apply Nat.eq_of_testBit_eq
  intro i
  rw [testBit_value, testBit_update_stack_value _ _ _ _ hv]
  by_cases h : i < 32
  · rw [if_pos (by omega)]
    have e : 32 + i - 32 = i := by omega
    simp [e, h]
  · have hb : v.testBit i = false := testBit_small hv (by omega)
    rw [if_neg (by omega), if_neg (by omega), hb]
    simp [h]

theorem Word.update_stack_value_opcodeNat (w : Word) (v : Nat) (o : OpCode)
    (hv : v < 2 ^ 32) : (w.update_stack_value v o).opcodeNat = o.toNat := by
  apply Nat.eq_of_testBit_eq
  intro i
  rw [testBit_opcodeNat]
  by_cases h : i < 6
  · rw [testBit_update_stack_value _ _ _ _ hv, if_neg (by omega), if_pos (by omega)]
    have e : 4 + i - 4 = i := by omega
    simp [e, h]
  · have hb : o.toNat.testBit i = false := testBit_small o.toNat_lt (by omega)
    simp [h, hb]

theorem Word.update_stack_value_tagNat (w : Word) (v : Nat) (o : OpCode)
    (hv : v < 2 ^ 32) : (w.update_stack_value v o).tagNat = w.tagNat := by
  apply Nat.eq_of_testBit_eq
  intro i
  rw [testBit_tagNat, testBit_tagNat]
  by_cases h : i < 4
  · rw [testBit_update_stack_value _ _ _ _ hv, if_neg (by omega), if_neg (by omega)]
    simp [h, (show i < 64 from by omega)]
  · simp [h]

theorem Word.update_stack_value_aux (w : Word) (v : Nat) (o : OpCode)
    (hv : v < 2 ^ 32) : (w.update_stack_value v o).aux = w.aux := by
  apply Nat.eq_of_testBit_eq
  intro i
  rw [testBit_aux, testBit_aux]
  by_cases h : i < 22
  · rw [testBit_update_stack_value _ _ _ _ hv, if_neg (by omega), if_neg (by omega)]
    simp [h, (show 10 + i < 64 from by omega)]
  · simp [h]

/-- Bitwise description of `Word.replace_with_stack_value` for a `u32`
value. -/
theorem testBit_replace_with_stack_value (word : Word) (v : Nat) (o : OpCode)
    (t : ValueTag) (i : Nat) (hv : v < 2 ^ 32) :
    (word.replace_with_stack_value v o t).raw.testBit i =
      if 32 ≤ i ∧ i < 64 then v.testBit (i - 32)
      else if 4 ≤ i ∧ i < 10 then o.toNat.testBit (i - 4)
      else if i < 4 then t.toNat.testBit i
      else (word.raw.testBit i && decide (i < 64)) := by
  rw [show (word.replace_with_stack_value v o t).raw
      = (((word.raw &&& not64 ((2 ^ 32 - 1) <<< 32)) &&& not64 ((2 ^ 6 - 1) <<< 4))
            &&& not64 ((2 ^ 4 - 1) <<< 0))
          ||| (v <<< 32) ||| ((o.toNat <<< 4) &&& ((2 ^ 6 - 1) <<< 4))
          ||| ((t.toNat <<< 0) &&& ((2 ^ 4 - 1) <<< 0)) from rfl]
  rw [Nat.testBit_or, Nat.testBit_or, Nat.testBit_or, Nat.testBit_and,
    Nat.testBit_and, Nat.testBit_and, Nat.testBit_and, Nat.testBit_and,
    testBit_not64, testBit_not64, testBit_not64, testBit_win, testBit_win,
    testBit_win, Nat.testBit_shiftLeft, Nat.testBit_shiftLeft,
    Nat.testBit_shiftLeft]
  by_cases h1 : i < 4
  · rw [if_neg (by omega), if_neg (by omega), if_pos h1]
    simp [h1, (show ¬(32 ≤ i) from by omega), (show ¬(4 ≤ i) from by omega),
      (show i < 64 from by omega)]
  · by_cases h2 : i < 10
    · rw [if_neg (by omega), if_pos (by omega)]
      simp [h1, h2, (show ¬(32 ≤ i) from by omega), (show 4 ≤ i from by omega),
        (show i < 64 from by omega)]
    · by_cases h3 : i < 32
      · rw [if_neg (by omega), if_neg (by omega), if_neg (by omega)]
        simp [h1, h2, (show ¬(32 ≤ i) from by omega), (show i < 64 from by omega)]
      · by_cases h4 : i < 64
        · rw [if_pos (by omega)]
          simp [h1, h2, h4, (show 32 ≤ i from by omega), (show ¬(i < 10) from h2)]
        · have hb : v.testBit (i - 32) = false := testBit_small hv (by omega)
          rw [if_neg (by omega), if_neg (by omega), if_neg (by omega), hb]
          simp [h1, h2, h4]

theorem Word.replace_with_stack_value_value (w : Word) (v : Nat) (o : OpCode)
    (t : ValueTag) (hv : v < 2 ^ 32) :
    (w.replace_with_stack_value v o t).value = v := by
  apply Nat.eq_of_testBit_eq
  intro i
  rw [testBit_value, testBit_replace_with_stack_value _ _ _ _ _ hv]
  by_cases h : i < 32
  · rw [if_pos (by omega)]
    have e : 32 + i - 32 = i := by omega
    simp [e, h]
  · have hb : v.testBit i = false := testBit_small hv (by omega)
    rw [if_neg (by omega), if_neg (by omega), if_neg (by omega), hb]
    simp [h]

theorem Word.replace_with_stack_value_opcodeNat (w : Word) (v : Nat)
    (o : OpCode) (t : ValueTag) (hv : v < 2 ^ 32) :
    (w.replace_with_stack_value v o t).opcodeNat = o.toNat := by
  apply Nat.eq_of_testBit_eq
  intro i
  rw [testBit_opcodeNat]
  by_cases h : i < 6
  · rw [testBit_replace_with_stack_value _ _ _ _ _ hv, if_neg (by omega),
      if_pos (by omega)]
    have e : 4 + i - 4 = i := by omega
    simp [e, h]
  · have hb : o.toNat.testBit i = false := testBit_small o.toNat_lt (by omega)
    simp [h, hb]

theorem Word.replace_with_stack_value_tagNat (w : Word) (v : Nat) (o : OpCode)
    (t : ValueTag) (hv : v < 2 ^ 32) :
    (w.replace_with_stack_value v o t).tagNat = t.toNat := by
  apply Nat.eq_of_testBit_eq
  intro i
  rw [testBit_tagNat]
  by_cases h : i < 4
  · rw [testBit_replace_with_stack_value _ _ _ _ _ hv, if_neg (by omega),
      if_neg (by omega), if_pos h]
    simp [h]
  · have hb : t.toNat.testBit i = false := testBit_small t.toNat_lt_tag (by omega)
    simp [h, hb]

theorem Word.replace_with_stack_value_aux (w : Word) (v : Nat) (o : OpCode)
    (t : ValueTag) (hv : v < 2 ^ 32) :
    (w.replace_with_stack_value v o t).aux = w.aux := by
  apply Nat.eq_of_testBit_eq
  intro i
  rw [testBit_aux, testBit_aux]
  by_cases h : i < 22
  · rw [testBit_replace_with_stack_value _ _ _ _ _ hv, if_neg (by omega),
      if_neg (by omega), if_neg (by omega)]
    simp [h, (show 10 + i < 64 from by omega)]
  · simp [h]

/-- `update_heap_value` changes the Word itself exactly like `set_opcode`
(its extra `& OPCODE_MASK` is a no-op on a valid discriminant). -/
theorem Word.update_heap_opcode_eq (w : Word) (o : OpCode) :
    w.update_heap_opcode o = w.set_opcode o := by
  have key : (o.toNat <<< 4) &&& ((2 ^ 6 - 1) <<< 4) = o.toNat <<< 4 := by
    apply Nat.eq_of_testBit_eq
    intro i
    rw [Nat.testBit_and, testBit_win, Nat.testBit_shiftLeft]
    by_cases h1 : 4 ≤ i
    · by_cases h2 : i < 10
      · simp [h1, h2]
      · have hb : o.toNat.testBit (i - 4) = false := testBit_small o.toNat_lt (by omega)
        simp [h1, h2, hb]
    · simp [h1]
  show Word.mk _ = Word.mk _
  rw [show ((o.toNat <<< OPCODE_START) &&& OPCODE_MASK)
      = ((o.toNat <<< 4) &&& ((2 ^ 6 - 1) <<< 4)) from rfl, key]
  rfl

/-! ## Derived field lemmas -/

theorem Word.new_opcode? (p : Nat) (o : OpCode) (t : ValueTag) :
    (Word.new p o t).opcode? = some o := by
  rw [Word.opcode?, Word.new_opcodeNat, OpCode.ofNat_toNat]

theorem Word.new_tag? (p : Nat) (o : OpCode) (t : ValueTag) :
    (Word.new p o t).tag? = some t := by
  rw [Word.tag?, Word.new_tagNat, ValueTag.ofNat_toNat_tag]

theorem Word.set_opcode_opcode? (w : Word) (o : OpCode) :
    (w.set_opcode o).opcode? = some o := by
  rw [Word.opcode?, Word.set_opcode_opcodeNat, OpCode.ofNat_toNat]

theorem Word.set_opcode_tag? (w : Word) (o : OpCode) :
    (w.set_opcode o).tag? = w.tag? := by
  rw [Word.tag?, Word.set_opcode_tagNat, Word.tag?]

theorem Word.set_aux_tag? (w : Word) (a : Nat) (ha : a < 2 ^ 22) :
    (w.set_aux a).tag? = w.tag? := by
  rw [Word.tag?, Word.set_aux_tagNat _ _ ha, Word.tag?]

theorem Word.set_aux_opcode? (w : Word) (a : Nat) (ha : a < 2 ^ 22) :
    (w.set_aux a).opcode? = w.opcode? := by
  rw [Word.opcode?, Word.set_aux_opcodeNat _ _ ha, Word.opcode?]

theorem Word.set_value_opcode? (w : Word) (v : Nat) (hv : v < 2 ^ 32) :
    (w.set_value v).opcode? = w.opcode? := by
  rw [Word.opcode?, Word.set_value_opcodeNat _ _ hv, Word.opcode?]

theorem Word.update_stack_value_opcode? (w : Word) (v : Nat) (o : OpCode)
    (hv : v < 2 ^ 32) : (w.update_stack_value v o).opcode? = some o := by
  rw [Word.opcode?, Word.update_stack_value_opcodeNat _ _ _ hv, OpCode.ofNat_toNat]

theorem Word.update_stack_value_tag? (w : Word) (v : Nat) (o : OpCode)
    (hv : v < 2 ^ 32) : (w.update_stack_value v o).tag? = w.tag? := by
  rw [Word.tag?, Word.update_stack_value_tagNat _ _ _ hv, Word.tag?]

theorem Word.replace_with_stack_value_tag? (w : Word) (v : Nat) (o : OpCode)
    (t : ValueTag) (hv : v < 2 ^ 32) :
    (w.replace_with_stack_value v o t).tag? = some t := by
  rw [Word.tag?, Word.replace_with_stack_value_tagNat _ _ _ _ hv, ValueTag.ofNat_toNat_tag]

theorem Word.replace_with_stack_value_opcode? (w : Word) (v : Nat) (o : OpCode)
    (t : ValueTag) (hv : v < 2 ^ 32) :
    (w.replace_with_stack_value v o t).opcode? = some o := by
  rw [Word.opcode?, Word.replace_with_stack_value_opcodeNat _ _ _ _ hv, OpCode.ofNat_toNat]

theorem encodeI32_lt (v : Int) : encodeI32 v < 2 ^ 32 := by
  unfold encodeI32
  omega

theorem decode_encodeI32 (v : Int) (h1 : -(2 ^ 31) ≤ v) (h2 : v < 2 ^ 31) :
    decodeI32 (encodeI32 v) = v := by
  unfold decodeI32 encodeI32
  split <;> omega

theorem encodeI32_of_nonneg (v : Int) (h1 : 0 ≤ v) (h2 : v < 2 ^ 31) :
    encodeI32 v = v.toNat := by
  unfold encodeI32
  omega

theorem encodeI32_of_neg (v : Int) (h1 : -(2 ^ 31) ≤ v) (h2 : v < 0) :
    encodeI32 v = (v + 2 ^ 32).toNat := by
  unfold encodeI32
  omega

theorem Word.int_value (v : Int) (o : OpCode) :
    (Word.int v o).value = encodeI32 v := by
  rw [Word.int, Word.new_value, Nat.mod_eq_of_lt (encodeI32_lt v)]

theorem Word.int_tag? (v : Int) (o : OpCode) :
    (Word.int v o).tag? = some ValueTag.int := Word.new_tag? _ _ _

theorem Word.int_opcode? (v : Int) (o : OpCode) :
    (Word.int v o).opcode? = some o := Word.new_opcode? _ _ _

theorem Word.int_to_int (v : Int) (o : OpCode) (h1 : -(2 ^ 31) ≤ v)
    (h2 : v < 2 ^ 31) : (Word.int v o).to_int = v := by
  rw [Word.to_int, Word.int_value, decode_encodeI32 v h1 h2]

theorem Word.bool_tag? (b : Bool) (o : OpCode) :
    (Word.bool b o).tag? = some ValueTag.bool := Word.new_tag? _ _ _

theorem Word.bool_to_bool (b : Bool) (o : OpCode) :
    (Word.bool b o).to_bool = b := by
  rw [Word.to_bool, Word.bool, Word.new_value]
  cases b <;> rfl

/-! ## Congruence: the in-place operations read only the tag, payload and
heap cell of their right operand, so rewriting its opcode (the `This`
encoding) does not change the result. -/

theorem Word.to_int_set_opcode (w : Word) (o : OpCode) :
    (w.set_opcode o).to_int = w.to_int := by
  rw [Word.to_int, Word.set_opcode_value, Word.to_int]

theorem Word.to_bool_set_opcode (w : Word) (o : OpCode) :
    (w.set_opcode o).to_bool = w.to_bool := by
  rw [Word.to_bool, Word.set_opcode_value, Word.to_bool]

theorem Word.to_float?_set_opcode {F : Type} (w : Word) (o : OpCode)
    (h : Heap F) : (w.set_opcode o).to_float? h = w.to_float? h := by
  rw [Word.to_float?, Word.set_opcode_value, Word.to_float?]

theorem Word.as_str?_set_opcode {F : Type} (w : Word) (o : OpCode)
    (h : Heap F) : (w.set_opcode o).as_str? h = w.as_str? h := by
  rw [Word.as_str?, Word.set_opcode_value, Word.as_str?]

/-! ## Claim C5: Word field independence -/

/-- C5 counterexample: the claim "set_aux leaves the payload unchanged for
every 32-bit aux argument" fails — `set_aux` does not mask its argument
against `AUX_MASK`, so an aux value with bit 22 set spills into the payload
field: `set_aux (2^22)` on the zero int Word changes `value` from 0 to 1. -/
theorem C5_set_aux_spills_into_payload :
    ((Word.int 0 OpCode.value).set_aux (2 ^ 22)).value
      ≠ (Word.int 0 OpCode.value).value := by
  decide

/-- C5 (amended): setting one field through its setter leaves the other
fields unchanged — unconditionally for `set_tag` and `set_opcode`, and for
`set_aux` only when the new aux fits the 22-bit aux field (a 32-bit aux
argument with a higher bit set spills into the payload,
`C5_set_aux_spills_into_payload`). -/
theorem C5_word_field_independence (w : Word) (t : ValueTag) (o : OpCode)
    (a : Nat) (ha : a < 2 ^ 22) :
    ((w.set_tag t).opcodeNat = w.opcodeNat ∧ (w.set_tag t).aux = w.aux ∧
      (w.set_tag t).value = w.value ∧ (w.set_tag t).tagNat = t.toNat) ∧
    ((w.set_opcode o).tagNat = w.tagNat ∧ (w.set_opcode o).aux = w.aux ∧
      (w.set_opcode o).value = w.value ∧ (w.set_opcode o).opcodeNat = o.toNat) ∧
    ((w.set_aux a).tagNat = w.tagNat ∧ (w.set_aux a).opcodeNat = w.opcodeNat ∧
      (w.set_aux a).value = w.value ∧ (w.set_aux a).aux = a) :=
  ⟨⟨w.set_tag_opcodeNat t, w.set_tag_aux t, w.set_tag_value t, w.set_tag_tagNat t⟩,
   ⟨w.set_opcode_tagNat o, w.set_opcode_aux o, w.set_opcode_value o,
     w.set_opcode_opcodeNat o⟩,
   ⟨w.set_aux_tagNat a ha, w.set_aux_opcodeNat a ha, w.set_aux_value a ha,
     w.set_aux_aux a ha⟩⟩

/-- Witness for `C5_word_field_independence` at a concrete Word. -/
theorem C5_word_field_independence_witness :
    (((Word.int 5 OpCode.add).set_tag ValueTag.bool).opcodeNat
        = (Word.int 5 OpCode.add).opcodeNat ∧
      ((Word.int 5 OpCode.add).set_tag ValueTag.bool).aux
        = (Word.int 5 OpCode.add).aux ∧
      ((Word.int 5 OpCode.add).set_tag ValueTag.bool).value
        = (Word.int 5 OpCode.add).value ∧
      ((Word.int 5 OpCode.add).set_tag ValueTag.bool).tagNat
        = ValueTag.bool.toNat) ∧
    (((Word.int 5 OpCode.add).set_opcode OpCode.stop).tagNat
        = (Word.int 5 OpCode.add).tagNat ∧
      ((Word.int 5 OpCode.add).set_opcode OpCode.stop).aux
        = (Word.int 5 OpCode.add).aux ∧
      ((Word.int 5 OpCode.add).set_opcode OpCode.stop).value
        = (Word.int 5 OpCode.add).value ∧
      ((Word.int 5 OpCode.add).set_opcode OpCode.stop).opcodeNat
        = OpCode.stop.toNat) ∧
    (((Word.int 5 OpCode.add).set_aux 3).tagNat = (Word.int 5 OpCode.add).tagNat ∧
      ((Word.int 5 OpCode.add).set_aux 3).opcodeNat
        = (Word.int 5 OpCode.add).opcodeNat ∧
      ((Word.int 5 OpCode.add).set_aux 3).value = (Word.int 5 OpCode.add).value ∧
      ((Word.int 5 OpCode.add).set_aux 3).aux = 3) :=
  C5_word_field_independence (Word.int 5 OpCode.add) ValueTag.bool OpCode.stop 3
    (by decide)

/-! ## Claim C10: Int comparisons compare payloads as unsigned integers -/

theorem wordPartialCmpM_int {F : Type} (fo : FloatOps F) (h : Heap F)
    (a : Int) (o : OpCode) (w2 : Word) :
    wordPartialCmpM fo h (Word.int a o) w2
      = Except.ok (some (compare (encodeI32 a) w2.value)) := by
  rw [wordPartialCmpM]
  rw [show (Word.int a o).tag? = some ValueTag.int from Word.int_tag? a o]
  rw [Word.int_value]

/-- C10: all four order comparisons on two Int-tagged value Words compare
the 32-bit payloads as unsigned naturals (`Word::partial_cmp` uses
`self.value()`), hence two nonnegative `i32`s compare in ordinary order while
a Word encoding a negative `i32` compares strictly greater than a Word
encoding a nonnegative one.  The `*This` opcode variants dispatch to these
same `*_inplace` functions (see `VM.step`), with the embedded-operand Word
as `rhs`. -/
theorem C10_int_comparisons_unsigned (a b : Int)
    (ha1 : -(2 ^ 31) ≤ a) (ha2 : a < 2 ^ 31)
    (hb1 : -(2 ^ 31) ≤ b) (hb2 : b < 2 ^ 31)
    {F : Type} [DecidableEq F] (fo : FloatOps F) (h : Heap F) :
    ((Word.less_than_inplace fo (Word.int a OpCode.value)
        (Word.int b OpCode.value) h).map (fun p => p.1.to_bool)
      = Except.ok (decide (encodeI32 a < encodeI32 b))) ∧
    ((Word.greater_than_inplace fo (Word.int a OpCode.value)
        (Word.int b OpCode.value) h).map (fun p => p.1.to_bool)
      = Except.ok (decide (encodeI32 b < encodeI32 a))) ∧
    ((Word.less_than_eq_inplace fo (Word.int a OpCode.value)
        (Word.int b OpCode.value) h).map (fun p => p.1.to_bool)
      = Except.ok (decide (encodeI32 a ≤ encodeI32 b))) ∧
    ((Word.greater_than_eq_inplace fo (Word.int a OpCode.value)
        (Word.int b OpCode.value) h).map (fun p => p.1.to_bool)
      = Except.ok (decide (encodeI32 b ≤ encodeI32 a))) ∧
    (0 ≤ a → 0 ≤ b → ((encodeI32 a < encodeI32 b) ↔ a < b)) ∧
    (a < 0 → 0 ≤ b → encodeI32 b < encodeI32 a) := by
  have tb : ∀ (w : Word) (p : Prop) (inst : Decidable p),
      (w.replace_with_stack_value (@ite Nat p inst 1 0) OpCode.value
        ValueTag.bool).to_bool = @decide p inst := by
    intro w p inst
    have hv : (@ite Nat p inst 1 0) < 2 ^ 32 := by
      rcases inst with hn | hy
      · simp [hn]
      · simp [hy]
    rw [Word.to_bool, Word.replace_with_stack_value_value _ _ _ _ hv]
    rcases inst with hn | hy
    · simp [hn]
    · simp [hy]
  refine ⟨?_, ?_, ?_, ?_, ?_, ?_⟩
  · rw [Word.less_than_inplace, wordPartialCmpM_int, Word.int_value]
    simp only [Except.map, Bind.bind, Except.bind, Except.pure]
    rw [tb]
    congr 1
    rw [decide_eq_decide, Option.some_inj]
    exact Nat.compare_eq_lt
  · rw [Word.greater_than_inplace, wordPartialCmpM_int, Word.int_value]
    simp only [Except.map, Bind.bind, Except.bind, Except.pure]
    rw [tb]
    congr 1
    rw [decide_eq_decide, Option.some_inj]
    exact Nat.compare_eq_gt
  · rw [Word.less_than_eq_inplace, wordPartialCmpM_int, Word.int_value]
    simp only [Except.map, Bind.bind, Except.bind, Except.pure]
    rw [tb]
    congr 1
    rw [decide_eq_decide, Option.some_inj, Option.some_inj]
    constructor
    · rintro (hc | hc)
      · exact Nat.le_of_lt (Nat.compare_eq_lt.mp hc)
      · exact Nat.le_of_eq (Nat.compare_eq_eq.mp hc)
    · intro hc
      rcases Nat.lt_or_ge (encodeI32 a) (encodeI32 b) with hlt | hge
      · exact Or.inl (Nat.compare_eq_lt.mpr hlt)
      · exact Or.inr (Nat.compare_eq_eq.mpr (by omega))
  · rw [Word.greater_than_eq_inplace, wordPartialCmpM_int, Word.int_value]
    simp only [Except.map, Bind.bind, Except.bind, Except.pure]
    rw [tb]
    congr 1
    rw [decide_eq_decide, Option.some_inj, Option.some_inj]
    constructor
    · rintro (hc | hc)
      · exact Nat.le_of_lt (Nat.compare_eq_gt.mp hc)
      · exact Nat.le_of_eq (Nat.compare_eq_eq.mp hc).symm
    · intro hc
      rcases Nat.lt_or_ge (encodeI32 b) (encodeI32 a) with hlt | hge
      · exact Or.inl (Nat.compare_eq_gt.mpr hlt)
      · exact Or.inr (Nat.compare_eq_eq.mpr (by omega))
  · intro hna hnb
    unfold encodeI32
    omega
  · intro hna hnb
    unfold encodeI32
    omega

/-- Witness for `C10_int_comparisons_unsigned` at `a = -1`, `b = 0`: the
negative Word compares greater. -/
theorem C10_int_comparisons_unsigned_witness :
    ((Word.less_than_inplace natFloatOps (Word.int (-1) OpCode.value)
        (Word.int 0 OpCode.value) []).map (fun p => p.1.to_bool)
      = Except.ok (decide (encodeI32 (-1) < encodeI32 0))) ∧
    ((Word.greater_than_inplace natFloatOps (Word.int (-1) OpCode.value)
        (Word.int 0 OpCode.value) []).map (fun p => p.1.to_bool)
      = Except.ok (decide (encodeI32 0 < encodeI32 (-1)))) ∧
    ((Word.less_than_eq_inplace natFloatOps (Word.int (-1) OpCode.value)
        (Word.int 0 OpCode.value) []).map (fun p => p.1.to_bool)
      = Except.ok (decide (encodeI32 (-1) ≤ encodeI32 0))) ∧
    ((Word.greater_than_eq_inplace natFloatOps (Word.int (-1) OpCode.value)
        (Word.int 0 OpCode.value) []).map (fun p => p.1.to_bool)
      = Except.ok (decide (encodeI32 0 ≤ encodeI32 (-1)))) ∧
    (0 ≤ (-1 : Int) → 0 ≤ (0 : Int) →
      ((encodeI32 (-1) < encodeI32 0) ↔ (-1 : Int) < 0)) ∧
    ((-1 : Int) < 0 → 0 ≤ (0 : Int) → encodeI32 0 < encodeI32 (-1)) :=
  C10_int_comparisons_unsigned (-1) 0 (by decide) (by decide) (by decide)
    (by decide) natFloatOps []

/-! ## Claim C7: division and modulo — zero divisors fail, others succeed -/

/-- C7 counterexample: the claim "with a nonzero right-hand operand
Divide/Modulo succeeds" fails at `i32::MIN / -1` (and `%`): Rust's `/` and
`%` panic on this overflowing pair in every build profile, so the VM aborts
instead of producing a quotient. -/
theorem C7_divide_modulo_overflow_counterexample :
    (Word.divide_inplace natFloatOps (Word.int (-(2 ^ 31)) OpCode.value)
        (Word.int (-1) OpCode.value) []
      = Except.error (VMError.fault "attempt to divide with overflow")) ∧
    (Word.modulo_inplace natFloatOps (Word.int (-(2 ^ 31)) OpCode.value)
        (Word.int (-1) OpCode.value) []
      = Except.error
          (VMError.fault "attempt to calculate the remainder with overflow")) := by
  constructor <;> decide

/-- C7 (amended): for homogeneous numeric operands, Divide and Modulo with a
zero right-hand operand fail with a VM error; with a nonzero right-hand
operand they succeed and replace the stack top with the (truncated) quotient
or remainder — except the overflowing pair `(i32::MIN, -1)`, which is a Rust
arithmetic panic (`C7_divide_modulo_overflow_counterexample`). -/
theorem C7_divide_modulo_zero_and_success {F : Type} [DecidableEq F]
    (fo : FloatOps F) (h : Heap F) (v w : Word) (a b : F) :
    (v.tag? = some ValueTag.int → w.tag? = some ValueTag.int →
      ((w.to_int = 0 →
        Word.divide_inplace fo v w h
            = Except.error (VMError.langulo "division by zero") ∧
        Word.modulo_inplace fo v w h
            = Except.error (VMError.langulo "modulo by zero")) ∧
      (w.to_int ≠ 0 → ¬(v.to_int = -(2 ^ 31) ∧ w.to_int = -1) →
        Word.divide_inplace fo v w h
            = Except.ok (v.update_stack_value
                (encodeI32 (Int.tdiv v.to_int w.to_int)) OpCode.value, h) ∧
        Word.modulo_inplace fo v w h
            = Except.ok (v.update_stack_value
                (encodeI32 (Int.tmod v.to_int w.to_int)) OpCode.value, h)))) ∧
    (v.tag? = some ValueTag.floatPtr → w.tag? = some ValueTag.floatPtr →
      v.to_float? h = some a → w.to_float? h = some b →
      ((b = fo.zero →
        Word.divide_inplace fo v w h
            = Except.error (VMError.langulo "division by zero") ∧
        Word.modulo_inplace fo v w h
            = Except.error (VMError.langulo "modulo by zero")) ∧
      (b ≠ fo.zero →
        Word.divide_inplace fo v w h
            = Except.ok (v.update_heap_opcode OpCode.value,
                h.set v.value (HeapCell.float (fo.div a b))) ∧
        Word.modulo_inplace fo v w h
            = Except.ok (v.update_heap_opcode OpCode.value,
                h.set v.value (HeapCell.float (fo.fmod a b)))))) := by
  constructor
  · intro hv hw
    constructor
    · intro h0
      rw [Word.divide_inplace, Word.modulo_inplace, hv]
      simp [h0]
    · intro h0 hov
      rw [Word.divide_inplace, Word.modulo_inplace, hv]
      simp only [if_neg h0]
      rw [if_neg hov, if_neg hov]
      exact ⟨rfl, rfl⟩
  · intro hv hw hda hdb
    constructor
    · intro h0
      rw [Word.divide_inplace, Word.modulo_inplace, hv, hda, hdb]
      simp [h0]
    · intro h0
      rw [Word.divide_inplace, Word.modulo_inplace, hv, hda, hdb]
      simp [h0]

/-- Witness for `C7_divide_modulo_zero_and_success`: the Int success branch
at `7 / 2` and `7 % 2`, with every hypothesis discharged concretely. -/
theorem C7_divide_modulo_zero_and_success_witness :
    Word.divide_inplace natFloatOps (Word.int 7 OpCode.value)
        (Word.int 2 OpCode.value) []
      = Except.ok ((Word.int 7 OpCode.value).update_stack_value
          (encodeI32 (Int.tdiv (Word.int 7 OpCode.value).to_int
            (Word.int 2 OpCode.value).to_int)) OpCode.value, ([] : Heap Nat)) ∧
    Word.modulo_inplace natFloatOps (Word.int 7 OpCode.value)
        (Word.int 2 OpCode.value) []
      = Except.ok ((Word.int 7 OpCode.value).update_stack_value
          (encodeI32 (Int.tmod (Word.int 7 OpCode.value).to_int
            (Word.int 2 OpCode.value).to_int)) OpCode.value, ([] : Heap Nat)) :=
  ((C7_divide_modulo_zero_and_success natFloatOps [] (Word.int 7 OpCode.value)
      (Word.int 2 OpCode.value) 0 0).1 (by decide) (by decide)).2
    (by decide) (by decide)

/-! ## The emitter only appends to (or patches inside) the bytecode:
the bytecode present before a node is emitted is a prefix of the bytecode
afterwards. -/

theorem IsPrefix.set_of_le {α : Type _} {l1 l2 : List α} (h : l1 <+: l2)
    {i : Nat} (hi : l1.length ≤ i) (x : α) : l1 <+: l2.set i x := by
  obtain ⟨t, rfl⟩ := h
  rw [List.set_append_right _ _ hi]
  exact List.prefix_append _ _

theorem push_embeddable_pref {F : Type} (e : Emitter F) (w : Word)
    (op : OpCode) (w' : Word) (e' : Emitter F)
    (h : push_embeddable e w op = (w', e')) : e.bytecode <+: e'.bytecode := by
  unfold push_embeddable at h
  by_cases hw : w.is_embeddable = true
  · rw [if_pos hw] at h
    cases h
    exact List.prefix_rfl
  · rw [if_neg hw] at h
    cases h
    exact List.prefix_append _ _

theorem emitPairsWith_pref {F : Type}
    (emit1 : Ast F → Emitter F → Except VMError (Word × Emitter F))
    (H : ∀ a e w e', emit1 a e = Except.ok (w, e') → e.bytecode <+: e'.bytecode) :
    ∀ (l : List (Ast F × Ast F)) (e e' : Emitter F),
      emitPairsWith emit1 l e = Except.ok e' → e.bytecode <+: e'.bytecode := by
  intro l
  induction l with
  | nil =>
    intro e e' h
    rw [emitPairsWith] at h
    cases h
    exact List.prefix_rfl
  | cons pr rest ih =>
    intro e e' h
    rw [emitPairsWith] at h
    cases h1 : emit1 pr.1 e with
    | error err =>
      simp only [h1, Bind.bind, Except.bind] at h
      exact Except.noConfusion h
    | ok p =>
      obtain ⟨kw, e1⟩ := p
      simp only [h1, Bind.bind, Except.bind] at h
      cases h2 : emit1 pr.2 (e1.push kw) with
      | error err =>
        simp only [h2, Bind.bind, Except.bind] at h
        exact Except.noConfusion h
      | ok q =>
        obtain ⟨vw, e2⟩ := q
        simp only [h2, Bind.bind, Except.bind] at h
        exact ((H pr.1 e kw e1 h1).trans
          ((List.prefix_append _ _).trans
            ((H pr.2 (e1.push kw) vw e2 h2).trans
              ((List.prefix_append _ _).trans (ih (e2.push vw) e' h)))))

theorem emitSeqWith_pref {F : Type}
    (emit1 : Ast F → Emitter F → Except VMError (Word × Emitter F))
    (H : ∀ a e w e', emit1 a e = Except.ok (w, e') → e.bytecode <+: e'.bytecode) :
    ∀ (l : List (Ast F)) (e e' : Emitter F),
      emitSeqWith emit1 l e = Except.ok e' → e.bytecode <+: e'.bytecode := by
  intro l
  induction l with
  | nil =>
    intro e e' h
    rw [emitSeqWith] at h
    cases h
    exact List.prefix_rfl
  | cons c rest ih =>
    intro e e' h
    rw [emitSeqWith] at h
    cases h1 : emit1 c e with
    | error err =>
      simp only [h1, Bind.bind, Except.bind] at h
      exact Except.noConfusion h
    | ok p =>
      obtain ⟨cw, e1⟩ := p
      simp only [h1, Bind.bind, Except.bind] at h
      exact ((H c e cw e1 h1).trans
        ((List.prefix_append _ _).trans (ih (e1.push cw) e' h)))

theorem emitNode_pref {F : Type} :
    ∀ (fuel : Nat) (ast : Ast F) (e : Emitter F) (w : Word) (e' : Emitter F),
      emitNode fuel ast e = Except.ok (w, e') → e.bytecode <+: e'.bytecode := by
  intro fuel
  induction fuel with
  | zero =>
    intro ast e w e' h
    rw [emitNode] at h
    exact Except.noConfusion h
  | succ fuel ih =>
    intro ast e w e' h
    cases ast with
    | intLit v =>
      rw [emitNode] at h
      cases h
      exact List.prefix_rfl
    | boolLit b =>
      rw [emitNode] at h
      cases h
      exact List.prefix_rfl
    | charLit c =>
      rw [emitNode] at h
      cases h
      exact List.prefix_rfl
    | floatLit f =>
      rw [emitNode] at h
      cases h
      exact List.prefix_rfl
    | strLit s =>
      rw [emitNode] at h
      cases h
      exact List.prefix_rfl
    | defaultKey =>
      rw [emitNode] at h
      cases h
      exact List.prefix_rfl
    | identifier name =>
      rw [emitNode] at h
      cases hr : rposition e.local_variables name with
      | some idx =>
        rw [hr] at h
        cases h
        exact List.prefix_rfl
      | none =>
        rw [hr] at h
        exact Except.noConfusion h
    | table pairs =>
      rw [emitNode] at h
      cases h1 : emitPairsWith (emitNode fuel) pairs e with
      | error err =>
        simp only [h1, Bind.bind, Except.bind] at h
        exact Except.noConfusion h
      | ok e2 =>
        simp only [h1, Bind.bind, Except.bind] at h
        cases h
        exact emitPairsWith_pref _ (fun a eo wo eo' ho => ih a eo wo eo' ho)
          pairs e _ h1
    | scope children =>
      rw [emitNode] at h
      cases h1 : emitSeqWith (emitNode fuel) children
          { e with curr_scope := e.curr_scope + 1 } with
      | error err =>
        simp only [h1, Bind.bind, Except.bind] at h
        exact Except.noConfusion h
      | ok e2 =>
        simp only [h1, Bind.bind, Except.bind] at h
        cases h
        exact emitSeqWith_pref _ (fun a eo wo eo' ho => ih a eo wo eo' ho)
          children { e with curr_scope := e.curr_scope + 1 } e2 h1
    | grouping t =>
      rw [emitNode] at h
      exact ih t e w e' h
    | optionNode inner =>
      cases inner with
      | none =>
        simp only [emitNode] at h
        injection h with h3
        exact push_embeddable_pref _ _ _ _ _ h3
      | some t =>
        simp only [emitNode] at h
        cases h1 : emitNode fuel t e with
        | error err =>
          simp only [h1, Bind.bind, Except.bind] at h
          exact Except.noConfusion h
        | ok p =>
          obtain ⟨tw, e1⟩ := p
          simp only [h1, Bind.bind, Except.bind] at h
          injection h with h3
          exact (ih t e tw e1 h1).trans (push_embeddable_pref _ _ _ _ _ h3)
    | unwrapOption t =>
      rw [emitNode] at h
      cases h1 : emitNode fuel t e with
      | error err =>
        simp only [h1, Bind.bind, Except.bind] at h
        exact Except.noConfusion h
      | ok p =>
        obtain ⟨tw, e1⟩ := p
        simp only [h1, Bind.bind, Except.bind] at h
        injection h with h3
        exact (ih t e tw e1 h1).trans (push_embeddable_pref _ _ _ _ _ h3)
    | print t =>
      rw [emitNode] at h
      cases h1 : emitNode fuel t e with
      | error err =>
        simp only [h1, Bind.bind, Except.bind] at h
        exact Except.noConfusion h
      | ok p =>
        obtain ⟨tw, e1⟩ := p
        simp only [h1, Bind.bind, Except.bind] at h
        injection h with h3
        exact (ih t e tw e1 h1).trans (push_embeddable_pref _ _ _ _ _ h3)
    | tableIndexing a i =>
      rw [emitNode] at h
      cases h1 : emitNode fuel a e with
      | error err =>
        simp only [h1, Bind.bind, Except.bind] at h
        exact Except.noConfusion h
      | ok p =>
        obtain ⟨aw, e1⟩ := p
        simp only [h1, Bind.bind, Except.bind] at h
        cases h2 : emitNode fuel i (e1.push aw) with
        | error err =>
          simp only [h2, Bind.bind, Except.bind] at h
          exact Except.noConfusion h
        | ok q =>
          obtain ⟨iw, e2⟩ := q
          simp only [h2, Bind.bind, Except.bind] at h
          injection h with h3
          exact ((ih a e aw e1 h1).trans
            ((List.prefix_append _ _).trans
              ((ih i _ iw e2 h2).trans (push_embeddable_pref _ _ _ _ _ h3))))
    | add l r =>
      rw [emitNode] at h
      cases h1 : emitNode fuel l e with
      | error err =>
        simp only [h1, Bind.bind, Except.bind] at h
        exact Except.noConfusion h
      | ok p =>
        obtain ⟨lw, e1⟩ := p
        simp only [h1, Bind.bind, Except.bind] at h
        cases h2 : emitNode fuel r (e1.push lw) with
        | error err =>
          simp only [h2, Bind.bind, Except.bind] at h
          exact Except.noConfusion h
        | ok q =>
          obtain ⟨rw_, e2⟩ := q
          simp only [h2, Bind.bind, Except.bind] at h
          injection h with h3
          exact ((ih l e lw e1 h1).trans
            ((List.prefix_append _ _).trans
              ((ih r _ rw_ e2 h2).trans (push_embeddable_pref _ _ _ _ _ h3))))
    | subtract l r =>
      rw [emitNode] at h
      cases h1 : emitNode fuel l e with
      | error err =>
        simp only [h1, Bind.bind, Except.bind] at h
        exact Except.noConfusion h
      | ok p =>
        obtain ⟨lw, e1⟩ := p
        simp only [h1, Bind.bind, Except.bind] at h
        cases h2 : emitNode fuel r (e1.push lw) with
        | error err =>
          simp only [h2, Bind.bind, Except.bind] at h
          exact Except.noConfusion h
        | ok q =>
          obtain ⟨rw_, e2⟩ := q
          simp only [h2, Bind.bind, Except.bind] at h
          injection h with h3
          exact ((ih l e lw e1 h1).trans
            ((List.prefix_append _ _).trans
              ((ih r _ rw_ e2 h2).trans (push_embeddable_pref _ _ _ _ _ h3))))
    | multiply l r =>
      rw [emitNode] at h
      cases h1 : emitNode fuel l e with
      | error err =>
        simp only [h1, Bind.bind, Except.bind] at h
        exact Except.noConfusion h
      | ok p =>
        obtain ⟨lw, e1⟩ := p
        simp only [h1, Bind.bind, Except.bind] at h
        cases h2 : emitNode fuel r (e1.push lw) with
        | error err =>
          simp only [h2, Bind.bind, Except.bind] at h
          exact Except.noConfusion h
        | ok q =>
          obtain ⟨rw_, e2⟩ := q
          simp only [h2, Bind.bind, Except.bind] at h
          injection h with h3
          exact ((ih l e lw e1 h1).trans
            ((List.prefix_append _ _).trans
              ((ih r _ rw_ e2 h2).trans (push_embeddable_pref _ _ _ _ _ h3))))
    | divide l r =>
      rw [emitNode] at h
      cases h1 : emitNode fuel l e with
      | error err =>
        simp only [h1, Bind.bind, Except.bind] at h
        exact Except.noConfusion h
      | ok p =>
        obtain ⟨lw, e1⟩ := p
        simp only [h1, Bind.bind, Except.bind] at h
        cases h2 : emitNode fuel r (e1.push lw) with
        | error err =>
          simp only [h2, Bind.bind, Except.bind] at h
          exact Except.noConfusion h
        | ok q =>
          obtain ⟨rw_, e2⟩ := q
          simp only [h2, Bind.bind, Except.bind] at h
          injection h with h3
          exact ((ih l e lw e1 h1).trans
            ((List.prefix_append _ _).trans
              ((ih r _ rw_ e2 h2).trans (push_embeddable_pref _ _ _ _ _ h3))))
    | modulo l r =>
      rw [emitNode] at h
      cases h1 : emitNode fuel l e with
      | error err =>
        simp only [h1, Bind.bind, Except.bind] at h
        exact Except.noConfusion h
      | ok p =>
        obtain ⟨lw, e1⟩ := p
        simp only [h1, Bind.bind, Except.bind] at h
        cases h2 : emitNode fuel r (e1.push lw) with
        | error err =>
          simp only [h2, Bind.bind, Except.bind] at h
          exact Except.noConfusion h
        | ok q =>
          obtain ⟨rw_, e2⟩ := q
          simp only [h2, Bind.bind, Except.bind] at h
          injection h with h3
          exact ((ih l e lw e1 h1).trans
            ((List.prefix_append _ _).trans
              ((ih r _ rw_ e2 h2).trans (push_embeddable_pref _ _ _ _ _ h3))))
    | logicalAnd l r =>
      rw [emitNode] at h
      cases h1 : emitNode fuel l e with
      | error err =>
        simp only [h1, Bind.bind, Except.bind] at h
        exact Except.noConfusion h
      | ok p =>
        obtain ⟨lw, e1⟩ := p
        simp only [h1, Bind.bind, Except.bind] at h
        cases h2 : emitNode fuel r (e1.push lw) with
        | error err =>
          simp only [h2, Bind.bind, Except.bind] at h
          exact Except.noConfusion h
        | ok q =>
          obtain ⟨rw_, e2⟩ := q
          simp only [h2, Bind.bind, Except.bind] at h
          injection h with h3
          exact ((ih l e lw e1 h1).trans
            ((List.prefix_append _ _).trans
              ((ih r _ rw_ e2 h2).trans (push_embeddable_pref _ _ _ _ _ h3))))
    | logicalOr l r =>
      rw [emitNode] at h
      cases h1 : emitNode fuel l e with
      | error err =>
        simp only [h1, Bind.bind, Except.bind] at h
        exact Except.noConfusion h
      | ok p =>
        obtain ⟨lw, e1⟩ := p
        simp only [h1, Bind.bind, Except.bind] at h
        cases h2 : emitNode fuel r (e1.push lw) with
        | error err =>
          simp only [h2, Bind.bind, Except.bind] at h
          exact Except.noConfusion h
        | ok q =>
          obtain ⟨rw_, e2⟩ := q
          simp only [h2, Bind.bind, Except.bind] at h
          injection h with h3
          exact ((ih l e lw e1 h1).trans
            ((List.prefix_append _ _).trans
              ((ih r _ rw_ e2 h2).trans (push_embeddable_pref _ _ _ _ _ h3))))
    | logicalXor l r =>
      rw [emitNode] at h
      cases h1 : emitNode fuel l e with
      | error err =>
        simp only [h1, Bind.bind, Except.bind] at h
        exact Except.noConfusion h
      | ok p =>
        obtain ⟨lw, e1⟩ := p
        simp only [h1, Bind.bind, Except.bind] at h
        cases h2 : emitNode fuel r (e1.push lw) with
        | error err =>
          simp only [h2, Bind.bind, Except.bind] at h
          exact Except.noConfusion h
        | ok q =>
          obtain ⟨rw_, e2⟩ := q
          simp only [h2, Bind.bind, Except.bind] at h
          injection h with h3
          exact ((ih l e lw e1 h1).trans
            ((List.prefix_append _ _).trans
              ((ih r _ rw_ e2 h2).trans (push_embeddable_pref _ _ _ _ _ h3))))
    | varDecl name init =>
      rw [emitNode] at h
      cases h1 : emitNode fuel init
          { e with local_variables := e.local_variables ++ [(name, e.curr_scope)] } with
      | error err =>
        simp only [h1, Bind.bind, Except.bind] at h
        exact Except.noConfusion h
      | ok p =>
        obtain ⟨dw, e1⟩ := p
        simp only [h1, Bind.bind, Except.bind] at h
        have base : e.bytecode <+: e1.bytecode :=
          ih init { e with local_variables := e.local_variables ++ [(name, e.curr_scope)] }
            dw e1 h1
        by_cases hw : dw.is_embeddable = true
        · rw [if_pos hw] at h
          cases h
          exact base
        · rw [if_neg hw] at h
          cases h
          exact base.trans (List.prefix_append _ _)
    | ifNode cond branch =>
      rw [emitNode] at h
      cases h1 : emitNode fuel cond e with
      | error err =>
        simp only [h1, Bind.bind, Except.bind] at h
        exact Except.noConfusion h
      | ok p =>
        obtain ⟨cw, e1⟩ := p
        simp only [h1, Bind.bind, Except.bind] at h
        cases h2 : emitNode fuel branch
            ((e1.push cw).push (Word.int 0 OpCode.jumpIfFalse)) with
        | error err =>
          simp only [h2, Bind.bind, Except.bind] at h
          exact Except.noConfusion h
        | ok q =>
          obtain ⟨bw, e4⟩ := q
          simp only [h2, Bind.bind, Except.bind] at h
          have base : e.bytecode <+: e4.bytecode :=
            ((ih cond e cw e1 h1).trans
              ((List.prefix_append _ _).trans
                ((List.prefix_append _ _).trans (ih branch _ bw e4 h2))))
          have hlen : e.bytecode.length ≤ (e1.push cw).bytecode.length :=
            List.IsPrefix.length_le
              ((ih cond e cw e1 h1).trans (List.prefix_append _ _))
          cases hp : patchValue e4.bytecode (e1.push cw).bytecode.length
              (e4.bytecode.length
                - ((e1.push cw).push (Word.int 0 OpCode.jumpIfFalse)).bytecode.length
                + 2) with
          | none =>
            rw [hp] at h
            exact Except.noConfusion h
          | some patched =>
            rw [hp] at h
            injection h with h3
            have hset : e.bytecode <+: patched := by
              unfold patchValue at hp
              cases hsl : e4.bytecode[(e1.push cw).bytecode.length]? with
              | none =>
                rw [hsl] at hp
                exact Option.noConfusion hp
              | some slot =>
                rw [hsl] at hp
                injection hp with hp2
                rw [← hp2]
                exact IsPrefix.set_of_le base hlen _
            exact hset.trans (push_embeddable_pref _ _ _ _ _ h3)
    | elseNode optionExpr fallback =>
      rw [emitNode] at h
      cases h1 : emitNode fuel optionExpr e with
      | error err =>
        simp only [h1, Bind.bind, Except.bind] at h
        exact Except.noConfusion h
      | ok p =>
        obtain ⟨ow, e1⟩ := p
        simp only [h1, Bind.bind, Except.bind] at h
        cases h2 : emitNode fuel fallback
            ((e1.push ow).push (Word.int 0 OpCode.jumpIfNo)) with
        | error err =>
          simp only [h2, Bind.bind, Except.bind] at h
          exact Except.noConfusion h
        | ok q =>
          obtain ⟨bw, e4⟩ := q
          simp only [h2, Bind.bind, Except.bind] at h
          have base : e.bytecode <+: e4.bytecode :=
            ((ih optionExpr e ow e1 h1).trans
              ((List.prefix_append _ _).trans
                ((List.prefix_append _ _).trans (ih fallback _ bw e4 h2))))
          have hlen : e.bytecode.length ≤ (e1.push ow).bytecode.length :=
            List.IsPrefix.length_le
              ((ih optionExpr e ow e1 h1).trans (List.prefix_append _ _))
          cases hp : patchValue e4.bytecode (e1.push ow).bytecode.length
              (e4.bytecode.length
                - ((e1.push ow).push (Word.int 0 OpCode.jumpIfNo)).bytecode.length
                + 1) with
          | none =>
            rw [hp] at h
            exact Except.noConfusion h
          | some patched =>
            rw [hp] at h
            cases h
            unfold patchValue at hp
            cases hsl : e4.bytecode[(e1.push ow).bytecode.length]? with
            | none =>
              rw [hsl] at hp
              exact Option.noConfusion hp
            | some slot =>
              rw [hsl] at hp
              injection hp with hp2
              rw [← hp2]
              exact IsPrefix.set_of_le base hlen _

/-! ## Claim C4: when does the emitter embed the right operand? -/

/-- C4 counterexample: a float literal's Word has opcode `ReadFromMap`, and
`is_embeddable` is `opcode() == Value` — so, contrary to the claim, a
`ReadFromMap` reference does not qualify as a pure value: emitting
`1 + 0.0` produces a bare `Add` Word, not `AddThis`. -/
theorem C4_readfrommap_not_embeddable_counterexample :
    ((emitNode 2 (Ast.add (Ast.intLit 1) (Ast.floatLit (0 : Nat))) Emitter.init).map
        (fun p => p.1.opcode?) = Except.ok (some OpCode.add)) ∧
    some OpCode.add ≠ some OpCode.addThis ∧
    (Word.raw_float 0).opcode? = some OpCode.readFromMap ∧
    (Word.raw_float 0).is_embeddable = false := by
  refine ⟨by decide, by decide, by decide, by decide⟩

/-- C4 (amended): for every binary operation node the emitter returns the
`OpThis`-rewritten right operand exactly when the right operand's Word has
opcode `Value` (`is_embeddable`), and otherwise pushes the operand and
returns a bare `Op` Word.  Words with opcode `ReadFromMap` (float/string
literal references) do not qualify and always take the bare-`Op` path. -/
theorem C4_opthis_iff_value_opcode {F : Type} (fuel : Nat) (n : Ast F)
    (op : OpCode) (l r : Ast F) (hn : IsBinaryNode n op l r) (e : Emitter F)
    (lw : Word) (e1 : Emitter F) (rw_ : Word) (e2 : Emitter F)
    (hl : emitNode fuel l e = Except.ok (lw, e1))
    (hr : emitNode fuel r (e1.push lw) = Except.ok (rw_, e2)) :
    emitNode (fuel + 1) n e
      = Except.ok (if rw_.is_embeddable then (rw_.set_opcode op.thisVariant, e2)
                   else (Word.int 0 op, e2.push rw_)) ∧
    (rw_.is_embeddable = true ↔ rw_.opcode? = some OpCode.value) ∧
    (∀ i, (Word.raw_float i).is_embeddable = false) := by
  refine ⟨?_, ?_, ?_⟩
  · cases hn <;>
      (rw [emitNode]
       simp only [hl, Bind.bind, Except.bind]
       simp only [hr, Bind.bind, Except.bind]
       rfl)
  · simp [Word.is_embeddable]
  · intro i
    simp [Word.is_embeddable, Word.raw_float, Word.new_opcode?]

/-- Witness for `C4_opthis_iff_value_opcode`: emitting `1 + 2` embeds the
right operand (`AddThis`). -/
theorem C4_opthis_iff_value_opcode_witness :
    (emitNode 2 (Ast.add (Ast.intLit 1) (Ast.intLit 2)) (Emitter.init (F := Nat))
      = Except.ok (if (Word.int 2 OpCode.value).is_embeddable
          then ((Word.int 2 OpCode.value).set_opcode OpCode.add.thisVariant,
            Emitter.init.push (Word.int 1 OpCode.value))
          else (Word.int 0 OpCode.add,
            (Emitter.init.push (Word.int 1 OpCode.value)).push
              (Word.int 2 OpCode.value)))) ∧
    ((Word.int 2 OpCode.value).is_embeddable = true ↔
      (Word.int 2 OpCode.value).opcode? = some OpCode.value) ∧
    (∀ i, (Word.raw_float i).is_embeddable = false) :=
  C4_opthis_iff_value_opcode 1 _ OpCode.add (Ast.intLit 1) (Ast.intLit 2)
    (IsBinaryNode.add _ _) Emitter.init (Word.int 1 OpCode.value) Emitter.init
    (Word.int 2 OpCode.value) (Emitter.init.push (Word.int 1 OpCode.value))
    (by decide) (by decide)

/-! ## Claim C9: If/Else jump payload fix-ups -/

theorem getElem?_of_pref {α : Type _} {l1 l2 : List α} (h : l1 <+: l2)
    {i : Nat} (hi : i < l1.length) : l2[i]? = l1[i]? := by
  obtain ⟨t, rfl⟩ := h
  rw [List.getElem?_append, if_pos hi]

/-- C9: emitting an `If` node reserves a `JumpIfFalse` Word right after the
condition and patches its payload to the number of Words the branch pushed
plus 2; an `Else` node reserves a `JumpIfNo` Word and patches its payload to
the number of Words the fallback pushed plus 1.  (`len_before_branch` is the
bytecode length including the reserved slot, so the pushed-Word count is
`e4.bytecode.length - len_before_branch`; payloads are patched through
`set_value(.. as u32)`, hence the `% 2 ^ 32`, which is the identity whenever
the branch is shorter than `2 ^ 32 - 2` Words.) -/
theorem C9_if_else_jump_payloads {F : Type} (fuel : Nat)
    (cond branch optionExpr fallback : Ast F) (e ee : Emitter F)
    (cw bw ow fw : Word) (e1 e4 f1 f4 : Emitter F)
    (hc : emitNode fuel cond e = Except.ok (cw, e1))
    (hb : emitNode fuel branch
      ((e1.push cw).push (Word.int 0 OpCode.jumpIfFalse)) = Except.ok (bw, e4))
    (ho : emitNode fuel optionExpr ee = Except.ok (ow, f1))
    (hf : emitNode fuel fallback
      ((f1.push ow).push (Word.int 0 OpCode.jumpIfNo)) = Except.ok (fw, f4)) :
    (∃ w' e', emitNode (fuel + 1) (Ast.ifNode cond branch) e = Except.ok (w', e') ∧
      e'.bytecode[(e1.push cw).bytecode.length]?
        = some ((Word.int 0 OpCode.jumpIfFalse).set_value
            ((e4.bytecode.length
              - ((e1.push cw).push (Word.int 0 OpCode.jumpIfFalse)).bytecode.length
              + 2) % 2 ^ 32)) ∧
      (∀ pw : Word,
        pw = (Word.int 0 OpCode.jumpIfFalse).set_value
          ((e4.bytecode.length
            - ((e1.push cw).push (Word.int 0 OpCode.jumpIfFalse)).bytecode.length
            + 2) % 2 ^ 32) →
        pw.opcode? = some OpCode.jumpIfFalse ∧
        pw.value = (e4.bytecode.length
          - ((e1.push cw).push (Word.int 0 OpCode.jumpIfFalse)).bytecode.length
          + 2) % 2 ^ 32)) ∧
    (∃ e', emitNode (fuel + 1) (Ast.elseNode optionExpr fallback) ee
        = Except.ok (fw, e') ∧
      e'.bytecode[(f1.push ow).bytecode.length]?
        = some ((Word.int 0 OpCode.jumpIfNo).set_value
            ((f4.bytecode.length
              - ((f1.push ow).push (Word.int 0 OpCode.jumpIfNo)).bytecode.length
              + 1) % 2 ^ 32)) ∧
      (∀ pw : Word,
        pw = (Word.int 0 OpCode.jumpIfNo).set_value
          ((f4.bytecode.length
            - ((f1.push ow).push (Word.int 0 OpCode.jumpIfNo)).bytecode.length
            + 1) % 2 ^ 32) →
        pw.opcode? = some OpCode.jumpIfNo ∧
        pw.value = (f4.bytecode.length
          - ((f1.push ow).push (Word.int 0 OpCode.jumpIfNo)).bytecode.length
          + 1) % 2 ^ 32)) := by
  have slotFacts : ∀ (pre : List Word) (slotw : Word) (post : Emitter F)
      (hpre : pre ++ [slotw] <+: post.bytecode) (v : Nat),
      patchValue post.bytecode pre.length v
        = some (post.bytecode.set pre.length (slotw.set_value (v % 2 ^ 32))) ∧
      (post.bytecode.set pre.length (slotw.set_value (v % 2 ^ 32)))[pre.length]?
        = some (slotw.set_value (v % 2 ^ 32)) := by
    intro pre slotw post hpre v
    have hi : pre.length < (pre ++ [slotw]).length := by
      simp
    have hslot : post.bytecode[pre.length]? = some slotw := by
      rw [getElem?_of_pref hpre hi, List.getElem?_concat_length]
    have hlt : pre.length < post.bytecode.length := by
      by_contra hge
      rw [List.getElem?_eq_none (by omega)] at hslot
      exact Option.noConfusion hslot
    constructor
    · unfold patchValue
      rw [hslot]
      rfl
    · rw [List.getElem?_set_self (by simpa using hlt)]
  constructor
  · -- If part
    have hpre : (e1.push cw).bytecode ++ [Word.int 0 OpCode.jumpIfFalse]
        <+: e4.bytecode :=
      emitNode_pref fuel branch _ bw e4 hb
    obtain ⟨hpatch, hidx⟩ := slotFacts (e1.push cw).bytecode
      (Word.int 0 OpCode.jumpIfFalse) e4 hpre
      (e4.bytecode.length
        - ((e1.push cw).push (Word.int 0 OpCode.jumpIfFalse)).bytecode.length + 2)
    set X := e4.bytecode.set (e1.push cw).bytecode.length
      ((Word.int 0 OpCode.jumpIfFalse).set_value
        ((e4.bytecode.length
          - ((e1.push cw).push (Word.int 0 OpCode.jumpIfFalse)).bytecode.length
          + 2) % 2 ^ 32)) with hX
    refine ⟨(push_embeddable { e4 with bytecode := X } bw OpCode.wrapInOption).1,
      (push_embeddable { e4 with bytecode := X } bw OpCode.wrapInOption).2,
      ?_, ?_, ?_⟩
    · rw [emitNode]
      simp only [hc, Bind.bind, Except.bind]
      simp only [hb, Bind.bind, Except.bind]
      rw [hpatch]
    · unfold push_embeddable
      by_cases hw : bw.is_embeddable = true
      · rw [if_pos hw]
        exact hidx
      · rw [if_neg hw]
        show ((e4.bytecode.set _ _) ++ [bw])[(e1.push cw).bytecode.length]? = _
        have hlt : (e1.push cw).bytecode.length < e4.bytecode.length := by
          have := List.IsPrefix.length_le hpre
          simp only [List.length_append, List.length_cons, List.length_nil] at this
          omega
        rw [List.getElem?_append, if_pos (by simpa using hlt)]
        exact hidx
    · intro pw hpw
      subst hpw
      refine ⟨?_, ?_⟩
      · rw [Word.set_value_opcode? _ _ (Nat.mod_lt _ (by norm_num)), Word.int_opcode?]
      · exact Word.set_value_value _ _ (Nat.mod_lt _ (by norm_num))
  · -- Else part
    have hpre : (f1.push ow).bytecode ++ [Word.int 0 OpCode.jumpIfNo]
        <+: f4.bytecode :=
      emitNode_pref fuel fallback _ fw f4 hf
    obtain ⟨hpatch, hidx⟩ := slotFacts (f1.push ow).bytecode
      (Word.int 0 OpCode.jumpIfNo) f4 hpre
      (f4.bytecode.length
        - ((f1.push ow).push (Word.int 0 OpCode.jumpIfNo)).bytecode.length + 1)
    set X := f4.bytecode.set (f1.push ow).bytecode.length
      ((Word.int 0 OpCode.jumpIfNo).set_value
        ((f4.bytecode.length
          - ((f1.push ow).push (Word.int 0 OpCode.jumpIfNo)).bytecode.length
          + 1) % 2 ^ 32)) with hX
    refine ⟨{ f4 with bytecode := X }, ?_, ?_, ?_⟩
    · rw [emitNode]
      simp only [ho, Bind.bind, Except.bind]
      simp only [hf, Bind.bind, Except.bind]
      rw [hpatch]
    · exact hidx
    · intro pw hpw
      subst hpw
      refine ⟨?_, ?_⟩
      · rw [Word.set_value_opcode? _ _ (Nat.mod_lt _ (by norm_num)), Word.int_opcode?]
      · exact Word.set_value_value _ _ (Nat.mod_lt _ (by norm_num))

/-- Witness for `C9_if_else_jump_payloads`: `if true {2}` (branch pushes no
extra Words, payload 2) and `1 else {3}` (payload 1). -/
theorem C9_if_else_jump_payloads_witness :
    (∃ w' e', emitNode (1 + 1)
        (Ast.ifNode (Ast.boolLit true) (Ast.intLit 2)) (Emitter.init (F := Nat))
        = Except.ok (w', e') ∧
      e'.bytecode[((Emitter.init (F := Nat)).push
          (Word.bool true OpCode.value)).bytecode.length]?
        = some ((Word.int 0 OpCode.jumpIfFalse).set_value
            (((((Emitter.init (F := Nat)).push (Word.bool true OpCode.value)).push
                (Word.int 0 OpCode.jumpIfFalse)).bytecode.length
              - ((((Emitter.init (F := Nat)).push (Word.bool true OpCode.value)).push
                (Word.int 0 OpCode.jumpIfFalse))).bytecode.length
              + 2) % 2 ^ 32)) ∧
      (∀ pw : Word,
        pw = (Word.int 0 OpCode.jumpIfFalse).set_value
          (((((Emitter.init (F := Nat)).push (Word.bool true OpCode.value)).push
              (Word.int 0 OpCode.jumpIfFalse)).bytecode.length
            - ((((Emitter.init (F := Nat)).push (Word.bool true OpCode.value)).push
              (Word.int 0 OpCode.jumpIfFalse))).bytecode.length
            + 2) % 2 ^ 32) →
        pw.opcode? = some OpCode.jumpIfFalse ∧
        pw.value = ((((Emitter.init (F := Nat)).push (Word.bool true OpCode.value)).push
              (Word.int 0 OpCode.jumpIfFalse)).bytecode.length
            - ((((Emitter.init (F := Nat)).push (Word.bool true OpCode.value)).push
              (Word.int 0 OpCode.jumpIfFalse))).bytecode.length
            + 2) % 2 ^ 32)) ∧
    (∃ e', emitNode (1 + 1)
        (Ast.elseNode (Ast.intLit 1) (Ast.intLit 3)) (Emitter.init (F := Nat))
        = Except.ok (Word.int 3 OpCode.value, e') ∧
      e'.bytecode[((Emitter.init (F := Nat)).push
          (Word.int 1 OpCode.value)).bytecode.length]?
        = some ((Word.int 0 OpCode.jumpIfNo).set_value
            (((((Emitter.init (F := Nat)).push (Word.int 1 OpCode.value)).push
                (Word.int 0 OpCode.jumpIfNo)).bytecode.length
              - ((((Emitter.init (F := Nat)).push (Word.int 1 OpCode.value)).push
                (Word.int 0 OpCode.jumpIfNo))).bytecode.length
              + 1) % 2 ^ 32)) ∧
      (∀ pw : Word,
        pw = (Word.int 0 OpCode.jumpIfNo).set_value
          (((((Emitter.init (F := Nat)).push (Word.int 1 OpCode.value)).push
              (Word.int 0 OpCode.jumpIfNo)).bytecode.length
            - ((((Emitter.init (F := Nat)).push (Word.int 1 OpCode.value)).push
              (Word.int 0 OpCode.jumpIfNo))).bytecode.length
            + 1) % 2 ^ 32) →
        pw.opcode? = some OpCode.jumpIfNo ∧
        pw.value = ((((Emitter.init (F := Nat)).push (Word.int 1 OpCode.value)).push
              (Word.int 0 OpCode.jumpIfNo)).bytecode.length
            - ((((Emitter.init (F := Nat)).push (Word.int 1 OpCode.value)).push
              (Word.int 0 OpCode.jumpIfNo))).bytecode.length
            + 1) % 2 ^ 32)) :=
  C9_if_else_jump_payloads 1 (Ast.boolLit true) (Ast.intLit 2) (Ast.intLit 1)
    (Ast.intLit 3) Emitter.init Emitter.init (Word.bool true OpCode.value)
    (Word.int 2 OpCode.value) (Word.int 1 OpCode.value) (Word.int 3 OpCode.value)
    Emitter.init
    (((Emitter.init (F := Nat)).push (Word.bool true OpCode.value)).push
      (Word.int 0 OpCode.jumpIfFalse))
    Emitter.init
    (((Emitter.init (F := Nat)).push (Word.int 1 OpCode.value)).push
      (Word.int 0 OpCode.jumpIfNo))
    (by decide) (by decide) (by decide) (by decide)

/-! ## Claim C1: embedded-operand equivalence -/

theorem wordEqM_set_opcode {F : Type} [DecidableEq F] (h : Heap F)
    (a w : Word) (o : OpCode) : wordEqM h a (w.set_opcode o) = wordEqM h a w := by
  simp only [wordEqM, Word.set_opcode_tag?, Word.set_opcode_value,
    Word.to_float?_set_opcode, Word.as_str?_set_opcode]

theorem wordPartialCmpM_set_opcode {F : Type} (fo : FloatOps F) (h : Heap F)
    (a w : Word) (o : OpCode) :
    wordPartialCmpM fo h a (w.set_opcode o) = wordPartialCmpM fo h a w := by
  simp only [wordPartialCmpM, Word.set_opcode_value, Word.to_float?_set_opcode,
    Word.as_str?_set_opcode]

theorem add_inplace_set_opcode {F : Type} (fo : FloatOps F) (self w : Word)
    (o : OpCode) (h : Heap F) :
    Word.add_inplace fo self (w.set_opcode o) h = Word.add_inplace fo self w h := by
  simp only [Word.add_inplace, Word.to_int, Word.set_opcode_value,
    Word.to_float?_set_opcode]

theorem subtract_inplace_set_opcode {F : Type} (fo : FloatOps F) (self w : Word)
    (o : OpCode) (h : Heap F) :
    Word.subtract_inplace fo self (w.set_opcode o) h
      = Word.subtract_inplace fo self w h := by
  simp only [Word.subtract_inplace, Word.to_int, Word.set_opcode_value,
    Word.to_float?_set_opcode]

theorem multiply_inplace_set_opcode {F : Type} (fo : FloatOps F) (self w : Word)
    (o : OpCode) (h : Heap F) :
    Word.multiply_inplace fo self (w.set_opcode o) h
      = Word.multiply_inplace fo self w h := by
  simp only [Word.multiply_inplace, Word.to_int, Word.set_opcode_value,
    Word.to_float?_set_opcode]

theorem divide_inplace_set_opcode {F : Type} [DecidableEq F] (fo : FloatOps F)
    (self w : Word) (o : OpCode) (h : Heap F) :
    Word.divide_inplace fo self (w.set_opcode o) h
      = Word.divide_inplace fo self w h := by
  simp only [Word.divide_inplace, Word.to_int, Word.set_opcode_value,
    Word.to_float?_set_opcode]

theorem modulo_inplace_set_opcode {F : Type} [DecidableEq F] (fo : FloatOps F)
    (self w : Word) (o : OpCode) (h : Heap F) :
    Word.modulo_inplace fo self (w.set_opcode o) h
      = Word.modulo_inplace fo self w h := by
  simp only [Word.modulo_inplace, Word.to_int, Word.set_opcode_value,
    Word.to_float?_set_opcode]

theorem exponentiate_inplace_set_opcode {F : Type} (fo : FloatOps F)
    (self w : Word) (o : OpCode) (h : Heap F) :
    Word.exponentiate_inplace fo self (w.set_opcode o) h
      = Word.exponentiate_inplace fo self w h := by
  simp only [Word.exponentiate_inplace, Word.set_opcode_tag?, Word.to_int,
    Word.set_opcode_value, Word.to_float?_set_opcode]

theorem logical_and_inplace_set_opcode {F : Type} (fo : FloatOps F)
    (self w : Word) (o : OpCode) (h : Heap F) :
    Word.logical_and_inplace fo self (w.set_opcode o) h
      = Word.logical_and_inplace fo self w h := by
  simp only [Word.logical_and_inplace, Word.to_bool, Word.set_opcode_value]

theorem logical_or_inplace_set_opcode {F : Type} (fo : FloatOps F)
    (self w : Word) (o : OpCode) (h : Heap F) :
    Word.logical_or_inplace fo self (w.set_opcode o) h
      = Word.logical_or_inplace fo self w h := by
  simp only [Word.logical_or_inplace, Word.to_bool, Word.set_opcode_value]

theorem logical_xor_inplace_set_opcode {F : Type} (fo : FloatOps F)
    (self w : Word) (o : OpCode) (h : Heap F) :
    Word.logical_xor_inplace fo self (w.set_opcode o) h
      = Word.logical_xor_inplace fo self w h := by
  simp only [Word.logical_xor_inplace, Word.to_bool, Word.set_opcode_value]

theorem equals_inplace_set_opcode {F : Type} [DecidableEq F] (fo : FloatOps F)
    (self w : Word) (o : OpCode) (h : Heap F) :
    Word.equals_inplace fo self (w.set_opcode o) h
      = Word.equals_inplace fo self w h := by
  simp only [Word.equals_inplace, wordEqM_set_opcode]

theorem not_equals_inplace_set_opcode {F : Type} [DecidableEq F]
    (fo : FloatOps F) (self w : Word) (o : OpCode) (h : Heap F) :
    Word.not_equals_inplace fo self (w.set_opcode o) h
      = Word.not_equals_inplace fo self w h := by
  simp only [Word.not_equals_inplace, wordEqM_set_opcode]

theorem greater_than_inplace_set_opcode {F : Type} (fo : FloatOps F)
    (self w : Word) (o : OpCode) (h : Heap F) :
    Word.greater_than_inplace fo self (w.set_opcode o) h
      = Word.greater_than_inplace fo self w h := by
  simp only [Word.greater_than_inplace, wordPartialCmpM_set_opcode]

theorem greater_than_eq_inplace_set_opcode {F : Type} (fo : FloatOps F)
    (self w : Word) (o : OpCode) (h : Heap F) :
    Word.greater_than_eq_inplace fo self (w.set_opcode o) h
      = Word.greater_than_eq_inplace fo self w h := by
  simp only [Word.greater_than_eq_inplace, wordPartialCmpM_set_opcode]

theorem less_than_inplace_set_opcode {F : Type} (fo : FloatOps F)
    (self w : Word) (o : OpCode) (h : Heap F) :
    Word.less_than_inplace fo self (w.set_opcode o) h
      = Word.less_than_inplace fo self w h := by
  simp only [Word.less_than_inplace, wordPartialCmpM_set_opcode]

theorem less_than_eq_inplace_set_opcode {F : Type} (fo : FloatOps F)
    (self w : Word) (o : OpCode) (h : Heap F) :
    Word.less_than_eq_inplace fo self (w.set_opcode o) h
      = Word.less_than_eq_inplace fo self w h := by
  simp only [Word.less_than_eq_inplace, wordPartialCmpM_set_opcode]

theorem runFuel_of_step {F : Type} [DecidableEq F] (fo : FloatOps F)
    (fuel : Nat) (vm : VM F) (current : Word)
    (hip : vm.bytecode[vm.ip]? = some current)
    (hnstop : ¬current.opcode? = some OpCode.stop) :
    VM.runFuel fo (fuel + 1) vm
      = match VM.step fo vm.ip current { vm with ip := vm.ip + 1 } with
        | Except.error e => Except.error e
        | Except.ok vm' => VM.runFuel fo fuel vm' := by
  rw [VM.runFuel, hip]
  exact if_neg hnstop

theorem runFuel_of_stop {F : Type} [DecidableEq F] (fo : FloatOps F)
    (fuel : Nat) (vm : VM F) (current : Word)
    (hip : vm.bytecode[vm.ip]? = some current)
    (hstop : current.opcode? = some OpCode.stop) :
    VM.runFuel fo (fuel + 1) vm = Except.ok { vm with ip := vm.ip + 1 } := by
  rw [VM.runFuel, hip]
  exact if_pos hstop

theorem C1_case {F : Type} [DecidableEq F] (fo : FloatOps F) (o oThis : OpCode)
    (inplace : Word → Word → Heap F → Except VMError (Word × Heap F))
    (v w opw stopw : Word) (H : Heap F)
    (hv : v.opcode? = some OpCode.value)
    (hw : w.opcode? = some OpCode.value)
    (hopw : opw.opcode? = some o)
    (hstop : stopw.opcode? = some OpCode.stop)
    (honstop : ¬o = OpCode.stop) (hotnstop : ¬oThis = OpCode.stop)
    (hci : ∀ o2 : OpCode, inplace v (w.set_opcode o2) H = inplace v w H)
    (hstep1 : ∀ (ipc : Nat) (vm : VM F),
      VM.step fo ipc (w.set_opcode oThis) vm
        = vm.runBinaryThis (w.set_opcode oThis) inplace)
    (hstep2 : ∀ (ipc : Nat) (vm : VM F),
      VM.step fo ipc opw vm = vm.runBinary inplace) :
    VM.runFinal fo (VM.fresh [v, w.set_opcode oThis, stopw] H)
      = VM.runFinal fo (VM.fresh [v, w, opw, stopw] H) := by
  have hv' : ¬v.opcode? = some OpCode.stop := by rw [hv]; decide
  have hw' : ¬w.opcode? = some OpCode.stop := by rw [hw]; decide
  have hwt' : ¬(w.set_opcode oThis).opcode? = some OpCode.stop := by
    rw [Word.set_opcode_opcode?]
    exact fun hc => hotnstop (Option.some.inj hc)
  have hopw' : ¬opw.opcode? = some OpCode.stop := by
    rw [hopw]
    exact fun hc => honstop (Option.some.inj hc)
  have hrunL : VM.run fo (VM.fresh [v, w.set_opcode oThis, stopw] H)
      = match inplace v w H with
        | Except.error e => Except.error e
        | Except.ok (t, h) =>
          Except.ok (⟨[v, w.set_opcode oThis, stopw], [], [t], 3, [], [], h⟩ : VM F) := by
    show VM.runFuel fo (3 + 1)
      (⟨[v, w.set_opcode oThis, stopw], [], [], 0, [], [], H⟩ : VM F) = _
    rw [runFuel_of_step fo 3 (⟨[v, w.set_opcode oThis, stopw], [], [], 0, [], [], H⟩ : VM F) v rfl hv']
    show (match VM.step fo 0 v
            (⟨[v, w.set_opcode oThis, stopw], [], [], 1, [], [], H⟩ : VM F) with
          | Except.error e => Except.error e
          | Except.ok vm2 => VM.runFuel fo 3 vm2) = _
    rw [show VM.step fo 0 v
          (⟨[v, w.set_opcode oThis, stopw], [], [], 1, [], [], H⟩ : VM F)
        = Except.ok (⟨[v, w.set_opcode oThis, stopw], [], [v], 1, [], [], H⟩ : VM F) from by
      simp only [VM.step, hv]]
    show VM.runFuel fo (2 + 1)
      (⟨[v, w.set_opcode oThis, stopw], [], [v], 1, [], [], H⟩ : VM F) = _
    rw [runFuel_of_step fo 2 (⟨[v, w.set_opcode oThis, stopw], [], [v], 1, [], [], H⟩ : VM F) (w.set_opcode oThis) rfl hwt']
    show (match VM.step fo 1 (w.set_opcode oThis)
            (⟨[v, w.set_opcode oThis, stopw], [], [v], 2, [], [], H⟩ : VM F) with
          | Except.error e => Except.error e
          | Except.ok vm2 => VM.runFuel fo 2 vm2) = _
    rw [hstep1]
    cases hres : inplace v w H with
    | error e =>
      rw [show (⟨[v, w.set_opcode oThis, stopw], [], [v], 2, [], [], H⟩ : VM F).runBinaryThis
            (w.set_opcode oThis) inplace
          = Except.error e from by
        simp only [VM.runBinaryThis, hci, hres, Bind.bind, Except.bind]]
    | ok pr =>
      obtain ⟨t, h⟩ := pr
      rw [show (⟨[v, w.set_opcode oThis, stopw], [], [v], 2, [], [], H⟩ : VM F).runBinaryThis
            (w.set_opcode oThis) inplace
          = Except.ok (⟨[v, w.set_opcode oThis, stopw], [], [t], 2, [], [], h⟩ : VM F) from by
        simp only [VM.runBinaryThis, hci, hres, Bind.bind, Except.bind]]
      show VM.runFuel fo (1 + 1)
        (⟨[v, w.set_opcode oThis, stopw], [], [t], 2, [], [], h⟩ : VM F) = _
      rw [runFuel_of_stop fo 1 (⟨[v, w.set_opcode oThis, stopw], [], [t], 2, [], [], h⟩ : VM F) stopw rfl hstop]
  have hrunR : VM.run fo (VM.fresh [v, w, opw, stopw] H)
      = match inplace v w H with
        | Except.error e => Except.error e
        | Except.ok (t, h) =>
          Except.ok (⟨[v, w, opw, stopw], [], [t], 4, [], [], h⟩ : VM F) := by
    show VM.runFuel fo (4 + 1) (⟨[v, w, opw, stopw], [], [], 0, [], [], H⟩ : VM F) = _
    rw [runFuel_of_step fo 4 (⟨[v, w, opw, stopw], [], [], 0, [], [], H⟩ : VM F) v rfl hv']
    show (match VM.step fo 0 v (⟨[v, w, opw, stopw], [], [], 1, [], [], H⟩ : VM F) with
          | Except.error e => Except.error e
          | Except.ok vm2 => VM.runFuel fo 4 vm2) = _
    rw [show VM.step fo 0 v (⟨[v, w, opw, stopw], [], [], 1, [], [], H⟩ : VM F)
        = Except.ok (⟨[v, w, opw, stopw], [], [v], 1, [], [], H⟩ : VM F) from by
      simp only [VM.step, hv]]
    show VM.runFuel fo (3 + 1) (⟨[v, w, opw, stopw], [], [v], 1, [], [], H⟩ : VM F) = _
    rw [runFuel_of_step fo 3 (⟨[v, w, opw, stopw], [], [v], 1, [], [], H⟩ : VM F) w rfl hw']
    show (match VM.step fo 1 w (⟨[v, w, opw, stopw], [], [v], 2, [], [], H⟩ : VM F) with
          | Except.error e => Except.error e
          | Except.ok vm2 => VM.runFuel fo 3 vm2) = _
    rw [show VM.step fo 1 w (⟨[v, w, opw, stopw], [], [v], 2, [], [], H⟩ : VM F)
        = Except.ok (⟨[v, w, opw, stopw], [], [w, v], 2, [], [], H⟩ : VM F) from by
      simp only [VM.step, hw]]
    show VM.runFuel fo (2 + 1) (⟨[v, w, opw, stopw], [], [w, v], 2, [], [], H⟩ : VM F) = _
    rw [runFuel_of_step fo 2 (⟨[v, w, opw, stopw], [], [w, v], 2, [], [], H⟩ : VM F) opw rfl hopw']
    show (match VM.step fo 2 opw (⟨[v, w, opw, stopw], [], [w, v], 3, [], [], H⟩ : VM F) with
          | Except.error e => Except.error e
          | Except.ok vm2 => VM.runFuel fo 2 vm2) = _
    rw [hstep2]
    cases hres : inplace v w H with
    | error e =>
      rw [show (⟨[v, w, opw, stopw], [], [w, v], 3, [], [], H⟩ : VM F).runBinary inplace
          = Except.error e from by
        simp only [VM.runBinary, hres, Bind.bind, Except.bind]]
    | ok pr =>
      obtain ⟨t, h⟩ := pr
      rw [show (⟨[v, w, opw, stopw], [], [w, v], 3, [], [], H⟩ : VM F).runBinary inplace
          = Except.ok (⟨[v, w, opw, stopw], [], [t], 3, [], [], h⟩ : VM F) from by
        simp only [VM.runBinary, hres, Bind.bind, Except.bind]]
      show VM.runFuel fo (1 + 1) (⟨[v, w, opw, stopw], [], [t], 3, [], [], h⟩ : VM F) = _
      rw [runFuel_of_stop fo 1 (⟨[v, w, opw, stopw], [], [t], 3, [], [], h⟩ : VM F) stopw rfl hstop]
  simp only [VM.runFinal, hrunL, hrunR]
  cases inplace v w H with
  | error e => rfl
  | ok pr => obtain ⟨t, h⟩ := pr; rfl

/-- C1: for every binary operator Op and operand Words v, w whose opcode is
Value, running `[Value v, OpThis w, Stop]` on a fresh VM yields the same
final stack top (and the same error, if any) as `[Value v, Value w, Op, Stop]`,
over any process heap. -/
theorem C1_embedded_operand_equivalence {F : Type} [DecidableEq F]
    (fo : FloatOps F) (op : OpCode) (hop : op.isBinaryOp = true)
    (v w opw stopw : Word) (H : Heap F)
    (hv : v.opcode? = some OpCode.value)
    (hw : w.opcode? = some OpCode.value)
    (hopw : opw.opcode? = some op)
    (hstop : stopw.opcode? = some OpCode.stop) :
    VM.runFinal fo (VM.fresh [v, w.set_opcode op.thisVariant, stopw] H)
      = VM.runFinal fo (VM.fresh [v, w, opw, stopw] H) := by
  cases op <;> try exact absurd hop (by decide)
  case add =>
    exact C1_case fo OpCode.add OpCode.addThis (Word.add_inplace fo) v w opw stopw H
      hv hw hopw hstop (by decide) (by decide)
      (fun o2 => add_inplace_set_opcode fo v w o2 H)
      (fun ipc vm => by
        have hwt : (w.set_opcode OpCode.addThis).opcode? = some OpCode.addThis :=
          Word.set_opcode_opcode? w OpCode.addThis
        simp only [VM.step, hwt])
      (fun ipc vm => by simp only [VM.step, hopw])
  case subtract =>
    exact C1_case fo OpCode.subtract OpCode.subtractThis (Word.subtract_inplace fo) v w opw stopw H
      hv hw hopw hstop (by decide) (by decide)
      (fun o2 => subtract_inplace_set_opcode fo v w o2 H)
      (fun ipc vm => by
        have hwt : (w.set_opcode OpCode.subtractThis).opcode? = some OpCode.subtractThis :=
          Word.set_opcode_opcode? w OpCode.subtractThis
        simp only [VM.step, hwt])
      (fun ipc vm => by simp only [VM.step, hopw])
  case multiply =>
    exact C1_case fo OpCode.multiply OpCode.multiplyThis (Word.multiply_inplace fo) v w opw stopw H
      hv hw hopw hstop (by decide) (by decide)
      (fun o2 => multiply_inplace_set_opcode fo v w o2 H)
      (fun ipc vm => by
        have hwt : (w.set_opcode OpCode.multiplyThis).opcode? = some OpCode.multiplyThis :=
          Word.set_opcode_opcode? w OpCode.multiplyThis
        simp only [VM.step, hwt])
      (fun ipc vm => by simp only [VM.step, hopw])
  case divide =>
    exact C1_case fo OpCode.divide OpCode.divideThis (Word.divide_inplace fo) v w opw stopw H
      hv hw hopw hstop (by decide) (by decide)
      (fun o2 => divide_inplace_set_opcode fo v w o2 H)
      (fun ipc vm => by
        have hwt : (w.set_opcode OpCode.divideThis).opcode? = some OpCode.divideThis :=
          Word.set_opcode_opcode? w OpCode.divideThis
        simp only [VM.step, hwt])
      (fun ipc vm => by simp only [VM.step, hopw])
  case modulo =>
    exact C1_case fo OpCode.modulo OpCode.moduloThis (Word.modulo_inplace fo) v w opw stopw H
      hv hw hopw hstop (by decide) (by decide)
      (fun o2 => modulo_inplace_set_opcode fo v w o2 H)
      (fun ipc vm => by
        have hwt : (w.set_opcode OpCode.moduloThis).opcode? = some OpCode.moduloThis :=
          Word.set_opcode_opcode? w OpCode.moduloThis
        simp only [VM.step, hwt])
      (fun ipc vm => by simp only [VM.step, hopw])
  case power =>
    exact C1_case fo OpCode.power OpCode.powerThis (Word.exponentiate_inplace fo) v w opw stopw H
      hv hw hopw hstop (by decide) (by decide)
      (fun o2 => exponentiate_inplace_set_opcode fo v w o2 H)
      (fun ipc vm => by
        have hwt : (w.set_opcode OpCode.powerThis).opcode? = some OpCode.powerThis :=
          Word.set_opcode_opcode? w OpCode.powerThis
        simp only [VM.step, hwt])
      (fun ipc vm => by simp only [VM.step, hopw])
  case logicalAnd =>
    exact C1_case fo OpCode.logicalAnd OpCode.logicalAndThis (Word.logical_and_inplace fo) v w opw stopw H
      hv hw hopw hstop (by decide) (by decide)
      (fun o2 => logical_and_inplace_set_opcode fo v w o2 H)
      (fun ipc vm => by
        have hwt : (w.set_opcode OpCode.logicalAndThis).opcode? = some OpCode.logicalAndThis :=
          Word.set_opcode_opcode? w OpCode.logicalAndThis
        simp only [VM.step, hwt])
      (fun ipc vm => by simp only [VM.step, hopw])
  case logicalOr =>
    exact C1_case fo OpCode.logicalOr OpCode.logicalOrThis (Word.logical_or_inplace fo) v w opw stopw H
      hv hw hopw hstop (by decide) (by decide)
      (fun o2 => logical_or_inplace_set_opcode fo v w o2 H)
      (fun ipc vm => by
        have hwt : (w.set_opcode OpCode.logicalOrThis).opcode? = some OpCode.logicalOrThis :=
          Word.set_opcode_opcode? w OpCode.logicalOrThis
        simp only [VM.step, hwt])
      (fun ipc vm => by simp only [VM.step, hopw])
  case logicalXor =>
    exact C1_case fo OpCode.logicalXor OpCode.logicalXorThis (Word.logical_xor_inplace fo) v w opw stopw H
      hv hw hopw hstop (by decide) (by decide)
      (fun o2 => logical_xor_inplace_set_opcode fo v w o2 H)
      (fun ipc vm => by
        have hwt : (w.set_opcode OpCode.logicalXorThis).opcode? = some OpCode.logicalXorThis :=
          Word.set_opcode_opcode? w OpCode.logicalXorThis
        simp only [VM.step, hwt])
      (fun ipc vm => by simp only [VM.step, hopw])
  case equals =>
    exact C1_case fo OpCode.equals OpCode.equalsThis (Word.equals_inplace fo) v w opw stopw H
      hv hw hopw hstop (by decide) (by decide)
      (fun o2 => equals_inplace_set_opcode fo v w o2 H)
      (fun ipc vm => by
        have hwt : (w.set_opcode OpCode.equalsThis).opcode? = some OpCode.equalsThis :=
          Word.set_opcode_opcode? w OpCode.equalsThis
        simp only [VM.step, hwt])
      (fun ipc vm => by simp only [VM.step, hopw])
  case notEquals =>
    exact C1_case fo OpCode.notEquals OpCode.notEqualsThis (Word.not_equals_inplace fo) v w opw stopw H
      hv hw hopw hstop (by decide) (by decide)
      (fun o2 => not_equals_inplace_set_opcode fo v w o2 H)
      (fun ipc vm => by
        have hwt : (w.set_opcode OpCode.notEqualsThis).opcode? = some OpCode.notEqualsThis :=
          Word.set_opcode_opcode? w OpCode.notEqualsThis
        simp only [VM.step, hwt])
      (fun ipc vm => by simp only [VM.step, hopw])
  case greaterThan =>
    exact C1_case fo OpCode.greaterThan OpCode.greaterThanThis (Word.greater_than_inplace fo) v w opw stopw H
      hv hw hopw hstop (by decide) (by decide)
      (fun o2 => greater_than_inplace_set_opcode fo v w o2 H)
      (fun ipc vm => by
        have hwt : (w.set_opcode OpCode.greaterThanThis).opcode? = some OpCode.greaterThanThis :=
          Word.set_opcode_opcode? w OpCode.greaterThanThis
        simp only [VM.step, hwt])
      (fun ipc vm => by simp only [VM.step, hopw])
  case lessThan =>
    exact C1_case fo OpCode.lessThan OpCode.lessThanThis (Word.less_than_inplace fo) v w opw stopw H
      hv hw hopw hstop (by decide) (by decide)
      (fun o2 => less_than_inplace_set_opcode fo v w o2 H)
      (fun ipc vm => by
        have hwt : (w.set_opcode OpCode.lessThanThis).opcode? = some OpCode.lessThanThis :=
          Word.set_opcode_opcode? w OpCode.lessThanThis
        simp only [VM.step, hwt])
      (fun ipc vm => by simp only [VM.step, hopw])
  case greaterThanEq =>
    exact C1_case fo OpCode.greaterThanEq OpCode.greaterThanEqThis (Word.greater_than_eq_inplace fo) v w opw stopw H
      hv hw hopw hstop (by decide) (by decide)
      (fun o2 => greater_than_eq_inplace_set_opcode fo v w o2 H)
      (fun ipc vm => by
        have hwt : (w.set_opcode OpCode.greaterThanEqThis).opcode? = some OpCode.greaterThanEqThis :=
          Word.set_opcode_opcode? w OpCode.greaterThanEqThis
        simp only [VM.step, hwt])
      (fun ipc vm => by simp only [VM.step, hopw])
  case lessThanEq =>
    exact C1_case fo OpCode.lessThanEq OpCode.lessThanEqThis (Word.less_than_eq_inplace fo) v w opw stopw H
      hv hw hopw hstop (by decide) (by decide)
      (fun o2 => less_than_eq_inplace_set_opcode fo v w o2 H)
      (fun ipc vm => by
        have hwt : (w.set_opcode OpCode.lessThanEqThis).opcode? = some OpCode.lessThanEqThis :=
          Word.set_opcode_opcode? w OpCode.lessThanEqThis
        simp only [VM.step, hwt])
      (fun ipc vm => by simp only [VM.step, hopw])

/-- Concrete instance of C1: `3 + 5` via `AddThis` versus via `Add`. -/
theorem C1_embedded_operand_equivalence_witness :
    OpCode.isBinaryOp OpCode.add = true ∧
    (Word.int 3 OpCode.value).opcode? = some OpCode.value ∧
    (Word.int 5 OpCode.value).opcode? = some OpCode.value ∧
    (Word.int 0 OpCode.add).opcode? = some OpCode.add ∧
    (Word.int 0 OpCode.stop).opcode? = some OpCode.stop ∧
    VM.runFinal natFloatOps (VM.fresh [Word.int 3 OpCode.value,
        (Word.int 5 OpCode.value).set_opcode (OpCode.thisVariant OpCode.add),
        Word.int 0 OpCode.stop] ([] : Heap Nat))
      = VM.runFinal natFloatOps (VM.fresh [Word.int 3 OpCode.value,
        Word.int 5 OpCode.value, Word.int 0 OpCode.add, Word.int 0 OpCode.stop]
        ([] : Heap Nat)) :=
  ⟨by decide, by decide, by decide, by decide, by decide,
   C1_embedded_operand_equivalence natFloatOps OpCode.add (by decide)
     (Word.int 3 OpCode.value) (Word.int 5 OpCode.value)
     (Word.int 0 OpCode.add) (Word.int 0 OpCode.stop) ([] : Heap Nat)
     (by decide) (by decide) (by decide) (by decide)⟩

/-- C3: `VM::run` has no dispatch arm for `JumpIfFalse`: on the bytecode the
emitter produces for `if false {2};` — push `false`, a `JumpIfFalse` Word
with payload 2, the branch value, `Stop` — execution falls into the
catch-all `_ => unimplemented!()` and aborts instead of popping the Bool
and conditionally advancing the instruction pointer. -/
theorem C3_jumpiffalse_unimplemented :
    VM.run natFloatOps (VM.from_bytecode_only
        [Word.bool false OpCode.value,
         (Word.int 0 OpCode.jumpIfFalse).set_value 2,
         Word.int 2 OpCode.value,
         Word.int 0 OpCode.stop])
      = Except.error (VMError.fault "opcode not implemented") := by
  decide

/-- C6 counterexample: the float pool is NOT take-once.  Two `ReadFromMap`
executions against the same float-pool index both succeed — the run ends
`Ok` with the pool entry still present (the `FloatPtr` arm dereferences and
copies `*f`; it never takes the entry). -/
theorem C6_float_pool_reread_succeeds_counterexample :
    (VM.run natFloatOps (VM.new
        [Word.new 0 OpCode.readFromMap ValueTag.floatPtr,
         Word.new 0 OpCode.readFromMap ValueTag.floatPtr,
         Word.new 0 OpCode.stop ValueTag.int]
        [7] [])).map (fun vm => (vm.heap_floats, vm.heap))
      = Except.ok ([7], [HeapCell.float 7, HeapCell.float 7]) := by
  decide

/-- C6 (amended): only the STRING pool is take-once: a first `ReadFromMap`
of a string entry moves it to the heap and replaces the pool slot with
`None`, so a second read of the same index fails with "string already
taken"; a float-pool `ReadFromMap` copies the entry and leaves the pool
unchanged, so float entries can be read any number of times. -/
theorem C6_take_once_strings_not_floats {F : Type} [DecidableEq F]
    (fo : FloatOps F) (ipc : Nat) (cur : Word) (vm : VM F)
    (hop : cur.opcode? = some OpCode.readFromMap) :
    (∀ s : ByteStr, cur.tag? = some ValueTag.strPtr →
      vm.heap_strings[cur.value]? = some (some s) →
      VM.step fo ipc cur vm = Except.ok { vm with
        heap_strings := vm.heap_strings.set cur.value none,
        stack := (Word.str s OpCode.value vm.heap).1 :: vm.stack,
        heap := (Word.str s OpCode.value vm.heap).2 }) ∧
    (cur.tag? = some ValueTag.strPtr →
      vm.heap_strings[cur.value]? = some none →
      VM.step fo ipc cur vm
        = Except.error (VMError.fault "string already taken")) ∧
    (∀ f : F, cur.tag? = some ValueTag.floatPtr →
      vm.heap_floats[cur.value]? = some f →
      VM.step fo ipc cur vm = Except.ok { vm with
        stack := (Word.float f OpCode.value vm.heap).1 :: vm.stack,
        heap := (Word.float f OpCode.value vm.heap).2 }) := by
  refine ⟨?_, ?_, ?_⟩
  · intro s ht hs
    simp only [VM.step, hop, ht, hs, Word.str, heapWrite]
  · intro ht hs
    simp only [VM.step, hop, ht, hs]
  · intro f ht hf
    simp only [VM.step, hop, ht, hf, Word.float, heapWrite]

/-- Concrete instances of the C6 amendment: a first string read takes the
entry, a read of a taken entry errors, a float read leaves the pool. -/
theorem C6_take_once_strings_not_floats_witness :
    (Word.new 0 OpCode.readFromMap ValueTag.strPtr).opcode?
        = some OpCode.readFromMap ∧
    VM.step natFloatOps 0 (Word.new 0 OpCode.readFromMap ValueTag.strPtr)
        (VM.new [] [] [some [104]])
      = Except.ok (⟨[], [], [Word.new 0 OpCode.value ValueTag.strPtr], 0,
          [], [none], [HeapCell.str [104]]⟩ : VM Nat) ∧
    VM.step natFloatOps 0 (Word.new 0 OpCode.readFromMap ValueTag.strPtr)
        (VM.new [] [] [none])
      = Except.error (VMError.fault "string already taken") ∧
    VM.step natFloatOps 0 (Word.new 0 OpCode.readFromMap ValueTag.floatPtr)
        (VM.new [] [7] [])
      = Except.ok (⟨[], [], [Word.new 0 OpCode.value ValueTag.floatPtr], 0,
          [7], [], [HeapCell.float 7]⟩ : VM Nat) :=
  ⟨by decide,
   (C6_take_once_strings_not_floats natFloatOps 0
      (Word.new 0 OpCode.readFromMap ValueTag.strPtr)
      (VM.new [] [] [some [104]]) (by decide)).1 [104] (by decide) (by decide),
   (C6_take_once_strings_not_floats natFloatOps 0
      (Word.new 0 OpCode.readFromMap ValueTag.strPtr)
      (VM.new [] [] [none]) (by decide)).2.1 (by decide) (by decide),
   (C6_take_once_strings_not_floats natFloatOps 0
      (Word.new 0 OpCode.readFromMap ValueTag.floatPtr)
      (VM.new [] [7] []) (by decide)).2.2 7 (by decide) (by decide)⟩

/-- C8: the bare `IndexGet` arm pops in the wrong roles.  The first popped
Word (the stack top — the key, which the emitter pushes last) is fed to
`as_table`, and the second popped (the table) is used as the lookup key.
On bytecode laid out as the emitter and the spec describe — table pushed
first, then the key — execution faults on `as_table` applied to the int
key, while the `IndexGetThis` form on the same table performs the intended
lookup and pushes `Some 42`. -/
theorem C8_indexget_pop_order_bug :
    VM.run natFloatOps (VM.fresh
        [Word.new 0 OpCode.value ValueTag.tablePtr,
         Word.int 1 OpCode.value,
         Word.new 0 OpCode.indexGet ValueTag.int,
         Word.new 0 OpCode.stop ValueTag.int]
        [HeapCell.table [(Word.int 1 OpCode.value, Word.int 42 OpCode.value)]])
      = Except.error (VMError.fault "as_table on a non-table word") ∧
    (VM.run natFloatOps (VM.fresh
        [Word.new 0 OpCode.value ValueTag.tablePtr,
         Word.int 1 OpCode.indexGetThis,
         Word.new 0 OpCode.stop ValueTag.int]
        [HeapCell.table [(Word.int 1 OpCode.value, Word.int 42 OpCode.value)]])).map
        (fun vm => vm.stack.map (fun w => w.as_option? vm.heap))
      = Except.ok [some (some (Word.int 42 OpCode.value))] := by
  decide

/-! ## Claim C2: serialize/load round trip -/

theorem leVal_u32le (n : Nat) : leVal (u32le n) = n % 2 ^ 32 := by
  show n % 256 + 256 * (n / 256 % 256 + 256 * (n / 65536 % 256
      + 256 * (n / 16777216 % 256 + 256 * 0))) = n % 4294967296
  omega

theorem leVal_u64le (n : Nat) : leVal (u64le n) = n % 2 ^ 64 := by
  show n % 256 + 256 * (n / 256 % 256 + 256 * (n / 65536 % 256
      + 256 * (n / 16777216 % 256 + 256 * (n / 4294967296 % 256
      + 256 * (n / 1099511627776 % 256 + 256 * (n / 281474976710656 % 256
      + 256 * (n / 72057594037927936 % 256 + 256 * 0)))))))
    = n % 18446744073709551616
  omega

theorem readChunk_append (l rest : List Nat) :
    readChunk l.length (l ++ rest) = Except.ok (l, rest) := by
  have h : ¬(l ++ rest).length < l.length := by
    rw [List.length_append]; omega
  rw [readChunk, if_neg h, List.take_left, List.drop_left]

theorem readChunk_one (b : Nat) (rest : List Nat) :
    readChunk 1 (b :: rest) = Except.ok ([b], rest) := by
  have h := readChunk_append [b] rest
  simpa using h

theorem readU32_append (n : Nat) (rest : List Nat) :
    readU32 (u32le n ++ rest) = Except.ok (n % 2 ^ 32, rest) := by
  have h := readChunk_append (u32le n) rest
  rw [show (u32le n).length = 4 from rfl] at h
  simp only [readU32, h, Bind.bind, Except.bind, leVal_u32le]

theorem readU32_exact (n : Nat) : readU32 (u32le n) = Except.ok (n % 2 ^ 32, []) := by
  have h := readU32_append n []
  simpa using h

theorem Word.from_u64_raw (w : Word) : Word.from_u64 w.raw = w := rfl

theorem foldr_concat_append {α : Type} (g : α → List Nat) (B : List α)
    (init rest : List Nat) :
    B.foldr (fun x acc => g x ++ acc) init ++ rest
      = B.foldr (fun x acc => g x ++ acc) (init ++ rest) := by
  induction B with
  | nil => rfl
  | cons x xs ih => simp only [List.foldr_cons, List.append_assoc, ih]

theorem foldr_str_append (S : List ByteStr) (init rest : List Nat) :
    S.foldr (fun s acc => u32le s.length ++ (s ++ acc)) init ++ rest
      = S.foldr (fun s acc => u32le s.length ++ (s ++ acc)) (init ++ rest) := by
  induction S with
  | nil => rfl
  | cons s ss ih => simp only [List.foldr_cons, List.append_assoc, ih]

theorem readWords_append (B : List Word) (hB : ∀ w ∈ B, w.raw < 2 ^ 64) :
    ∀ rest : List Nat,
      readWords B.length (B.foldr (fun w acc => u64le w.raw ++ acc) rest)
        = Except.ok (B, rest) := by
  induction B with
  | nil => intro rest; rfl
  | cons w ws ih =>
    intro rest
    have h8 := readChunk_append (u64le w.raw)
      (ws.foldr (fun x acc => u64le x.raw ++ acc) rest)
    rw [show (u64le w.raw).length = 8 from rfl] at h8
    have hw : w.raw < 2 ^ 64 := hB w (List.mem_cons_self w ws)
    have ihw := ih (fun x hx => hB x (List.mem_cons_of_mem w hx)) rest
    simp only [List.foldr_cons, List.length_cons, readWords, h8, Bind.bind,
      Except.bind, ihw, leVal_u64le, Nat.mod_eq_of_lt hw, Word.from_u64_raw]

theorem readFloats_append {F : Type} (c : F64Codec F)
    (hlen : ∀ f : F, (c.toLe f).length = 8)
    (hof : ∀ f : F, c.ofLe (c.toLe f) = f) (L : List F) :
    ∀ rest : List Nat,
      readFloats c L.length (L.foldr (fun f acc => c.toLe f ++ acc) rest)
        = Except.ok (L, rest) := by
  induction L with
  | nil => intro rest; rfl
  | cons f fs ih =>
    intro rest
    have h8 := readChunk_append (c.toLe f)
      (fs.foldr (fun x acc => c.toLe x ++ acc) rest)
    rw [hlen f] at h8
    simp only [List.foldr_cons, List.length_cons, readFloats, h8, Bind.bind,
      Except.bind, ih rest, hof f]

theorem readStrings_append (S : List ByteStr)
    (hS : ∀ s ∈ S, s.length < 2 ^ 32 ∧ utf8Valid s = true) :
    ∀ rest : List Nat,
      readStrings S.length
          (S.foldr (fun s acc => u32le s.length ++ (s ++ acc)) rest)
        = Except.ok (S, rest) := by
  induction S with
  | nil => intro rest; rfl
  | cons s ss ih =>
    intro rest
    have hs1 := hS s (List.mem_cons_self s ss)
    have ihs := ih (fun x hx => hS x (List.mem_cons_of_mem s hx)) rest
    have hck := readChunk_append s
      (ss.foldr (fun x acc => u32le x.length ++ (x ++ acc)) rest)
    simp only [List.foldr_cons, List.length_cons, readStrings, readU32_append,
      Bind.bind, Except.bind, Nat.mod_eq_of_lt hs1.1, hck, hs1.2,
      eq_self_iff_true, if_true, ihs]

/-- C2: serializing an emitter state with `write_to_stream` and loading the
byte stream back with `from_compiled_stream` reproduces the bytecode, the
float pool, and the string pool (strings re-enter the pool wrapped in
`Some`, ready for take-once reads), for any section contents within the
format's 32-bit length bounds, 64-bit Words, UTF-8 strings, and an exact
8-byte float codec. -/
theorem C2_serialize_load_roundtrip {F : Type} (c : F64Codec F) (e : Emitter F)
    (hcodec_len : ∀ f : F, (c.toLe f).length = 8)
    (hcodec_inv : ∀ f : F, c.ofLe (c.toLe f) = f)
    (hwords : ∀ w ∈ e.bytecode, w.raw < 2 ^ 64)
    (hblen : e.bytecode.length < 2 ^ 32)
    (hflen : e.heap_floats.length < 2 ^ 32)
    (hslen : e.heap_strings.length < 2 ^ 32)
    (hstrs : ∀ s ∈ e.heap_strings, s.length < 2 ^ 32 ∧ utf8Valid s = true) :
    VM.from_compiled_stream c (Emitter.write_to_stream c e)
      = Except.ok ⟨e.bytecode, [], [], 0, e.heap_floats,
          e.heap_strings.map some, []⟩ := by
  have hw := readWords_append e.bytecode hwords
  have hf := readFloats_append c hcodec_len hcodec_inv e.heap_floats
  have hs := readStrings_append e.heap_strings hstrs
  simp only [VM.from_compiled_stream, Emitter.write_to_stream,
    List.append_assoc, List.cons_append, List.nil_append,
    foldr_concat_append, foldr_str_append]
  simp only [readChunk_one, readU32_append, readU32_exact, Bind.bind,
    Except.bind, Nat.mod_eq_of_lt hblen, Nat.mod_eq_of_lt hflen,
    Nat.mod_eq_of_lt hslen, hw, hf, hs, ne_eq, not_true, if_false, reduceIte]

/-- Concrete instance of C2 over the one-point float type: one Word, one
float, one string round-trip exactly. -/
theorem C2_serialize_load_roundtrip_witness :
    (∀ f : Fin 1,
      ((⟨fun _ => [0, 0, 0, 0, 0, 0, 0, 0], fun _ => 0⟩ : F64Codec (Fin 1)).toLe f).length = 8) ∧
    (∀ f : Fin 1,
      (⟨fun _ => [0, 0, 0, 0, 0, 0, 0, 0], fun _ => 0⟩ : F64Codec (Fin 1)).ofLe
        ((⟨fun _ => [0, 0, 0, 0, 0, 0, 0, 0], fun _ => 0⟩ : F64Codec (Fin 1)).toLe f) = f) ∧
    (∀ w ∈ (⟨[Word.int 3 OpCode.value], [0], [[104, 105]], [], 0⟩ : Emitter (Fin 1)).bytecode,
      w.raw < 2 ^ 64) ∧
    (∀ s ∈ (⟨[Word.int 3 OpCode.value], [0], [[104, 105]], [], 0⟩ : Emitter (Fin 1)).heap_strings,
      s.length < 2 ^ 32 ∧ utf8Valid s = true) ∧
    VM.from_compiled_stream (⟨fun _ => [0, 0, 0, 0, 0, 0, 0, 0], fun _ => 0⟩ : F64Codec (Fin 1))
        (Emitter.write_to_stream ⟨fun _ => [0, 0, 0, 0, 0, 0, 0, 0], fun _ => 0⟩
          (⟨[Word.int 3 OpCode.value], [0], [[104, 105]], [], 0⟩ : Emitter (Fin 1)))
      = Except.ok ⟨[Word.int 3 OpCode.value], [], [], 0, [0], [some [104, 105]], []⟩ :=
  ⟨by decide, by decide, by decide, by decide,
   C2_serialize_load_roundtrip
     (⟨fun _ => [0, 0, 0, 0, 0, 0, 0, 0], fun _ => 0⟩ : F64Codec (Fin 1))
     (⟨[Word.int 3 OpCode.value], [0], [[104, 105]], [], 0⟩ : Emitter (Fin 1))
     (by decide) (by decide) (by decide) (by decide) (by decide) (by decide)
     (by decide)⟩

end Langulo
